import Mathlib

/-!
# Game of Life board (`cmd/main.go`): a shallow embedding

The Go program keeps a `board` (two `int` fields and a `[][]Cell` matrix) and
works on it through pointer-receiver methods.  The embedding below follows the
source statement by statement:

* slices are `List`s, a `*Cell` pointing into the matrix is the slot it
  addresses (`CellPtr`), loads and stores through it are explicit;
* a Go runtime panic (index out of range, negative `make` length, nil
  dereference) is the outer `Option` being `none`;
* `error` is `Option String`, `nil` being `none`;
* `for ... range` loops are the combinators `forEach` (body without `return`)
  and `forRet` (body that may `return`), run over the index list;
* `uint8` arithmetic is `Nat` arithmetic reduced `% 256`;
* `int` values are `Int`.  The only `int` arithmetic is `b.rows-1`,
  `b.columns-1` and `row±1`, `col±1` for loop indices: on a well-formed board
  (the `rows` field is the matrix length, every row is `columns` long) none of
  them leaves the 64 bit range, and the claims are stated for such boards.
-/

namespace GameOfLife

/-! ## Control flow -/

/-- Outcome of running a loop body that may execute a `return` statement. -/
inductive Flow (σ ρ : Type) where
  | next (s : σ)
  | ret (s : σ) (r : ρ)
  | panic
deriving DecidableEq

/-- A `for` loop over the items `is` whose body contains no `return`:
`none` is a runtime panic inside the body. -/
def forEach {ι σ : Type} (body : ι → σ → Option σ) : List ι → σ → Option σ
  | [], s => some s
  | i :: is, s =>
    match body i s with
    | none => none
    | some s1 => forEach body is s1

/-- A `for` loop over the items `is` whose body may `return`. -/
def forRet {ι σ ρ : Type} (body : ι → σ → Flow σ ρ) : List ι → σ → Flow σ ρ
  | [], s => Flow.next s
  | i :: is, s =>
    match body i s with
    | Flow.next s1 => forRet body is s1
    | Flow.ret s1 r => Flow.ret s1 r
    | Flow.panic => Flow.panic

/-- Go's `error` interface value: `nil` is `none`, `errors.New msg` is `some msg`. -/
abbrev error := Option String

/-- The builtin `make([]T, n)`: panics on a negative length, otherwise `n` zero values. -/
def make {α : Type} (zero : α) (n : Int) : Option (List α) :=
  if n < 0 then none else some (List.replicate n.toNat zero)

/-! ## Two-dimensional slices -/

/-- The expression `g[r][c]` read: `none` when either index is out of range. -/
def Grid.at? {α : Type} (g : List (List α)) (r c : Nat) : Option α :=
  match g[r]? with
  | none => none
  | some row => row[c]?

/-- The assignment `g[r][c] = v`: `none` (panic) when either index is out of range. -/
def Grid.store {α : Type} (g : List (List α)) (r c : Nat) (v : α) : Option (List (List α)) :=
  match g[r]? with
  | none => none
  | some row => if c < row.length then some (g.set r (row.set c v)) else none

/-- The assignment `g[r] = row`: `none` (panic) when the index is out of range. -/
def Grid.storeRow {α : Type} (g : List (List α)) (r : Nat) (row : List α) : Option (List (List α)) :=
  if r < g.length then some (g.set r row) else none

/-! ## Data model -/

/-- Go: `type Cell struct { isAlive bool }` -/
structure Cell where
  isAlive : Bool
deriving DecidableEq

/-- Go: `func (c *Cell) Iterate(neighbourCount uint8)`, as the new value of `*c`. -/
def Cell.Iterate (c : Cell) (neighbourCount : Nat) : Cell :=
  if c.isAlive then
    if neighbourCount < 2 then { c with isAlive := false }
    else if neighbourCount > 3 then { c with isAlive := false }
    else c
  else
    if neighbourCount > 3 then { c with isAlive := true }
    else c

/-- Go: `type Position struct { Row int; Column int }` -/
structure Position where
  Row : Int
  Column : Int
deriving DecidableEq

/-- Go: `type board struct { rows int; columns int; matrix [][]Cell }` -/
structure board where
  rows : Int
  columns : Int
  matrix : List (List Cell)
deriving DecidableEq

/-- A `*Cell` obtained as `&b.matrix[row][column]`: the slot it addresses. -/
structure CellPtr where
  row : Nat
  column : Nat
deriving DecidableEq

/-- Reading `*p` for a pointer into the matrix of `b`. -/
def board.load (b : board) (p : CellPtr) : Option GameOfLife.Cell :=
  Grid.at? b.matrix p.row p.column

/-- Writing `*p = v` for a pointer into the matrix of `b`. -/
def board.store (b : board) (p : CellPtr) (v : GameOfLife.Cell) : Option board :=
  match Grid.store b.matrix p.row p.column v with
  | none => none
  | some m => some { b with matrix := m }

/-- A board is well formed when `rows` is the number of rows of the matrix and
every row has `columns` cells. -/
def board.WellFormed (b : board) : Prop :=
  b.rows = (b.matrix.length : Int) ∧ ∀ row ∈ b.matrix, (row.length : Int) = b.columns

instance (b : board) : Decidable b.WellFormed := by
  unfold board.WellFormed; infer_instance

/-! ## `board.Cell` -/

/-- Go: `func (b *board) Cell(row, column int) (*Cell, error)`.
The four guards return `(nil, errors.New ...)`; otherwise `&b.matrix[row][column]`
is evaluated, which bounds-checks both indexes.  The subtractions `b.rows-1` and
`b.columns-1` are taken in `Int`: this is Go's `int` result whenever the field is
not the least `int`, in particular on every well-formed board, where `rows` is a
length and `columns` is a length as soon as the column guards are reached.
The claims about `Cell` are stated for well-formed boards. -/
def board.Cell (b : board) (row column : Int) : Option (Option CellPtr × error) :=
  if row < 0 then some (none, some "Row must not be negative")
  else if row > b.rows - 1 then some (none, some "Row exceeds dimension")
  else if column < 0 then some (none, some "Column must not be negative")
  else if column > b.columns - 1 then some (none, some "Column exceeds dimension")
  else
    match Grid.at? b.matrix row.toNat column.toNat with
    | none => none
    | some _ => some (some ⟨row.toNat, column.toNat⟩, none)

/-! ## `board.Neighbours` -/

/-- The composite literal `[]Position{...}` of `Neighbours`, in source order. -/
def board.Neighbours.positions (row col : Int) : List Position :=
  [ ⟨row - 1, col - 1⟩,
    ⟨row - 1, col⟩,
    ⟨row - 1, col + 1⟩,
    ⟨row, col - 1⟩,
    ⟨row, col + 1⟩,
    ⟨row + 1, col - 1⟩,
    ⟨row + 1, col⟩,
    ⟨row + 1, col + 1⟩ ]

/-- Body of the innermost loop of `Neighbours`: look the position up and
increment the `uint8` counter when the lookup succeeds on a live cell. -/
def board.Neighbours.visit (b : board) (pos : Position) (neighbourCount : Nat) : Option Nat :=
  match b.Cell pos.Row pos.Column with
  | none => none
  | some (cell, err) =>
    if err = none then
      match cell with
      | none => none
      | some p =>
        match b.load p with
        | none => none
        | some c => if c.isAlive then some ((neighbourCount + 1) % 256) else some neighbourCount
    else some neighbourCount

/-- The statements of the `col` loop body: count, then `neighbours[row][col] = neighbourCount`. -/
def board.Neighbours.cell (b : board) (row col : Nat) (neighbours : List (List Nat)) :
    Option (List (List Nat)) :=
  match forEach (board.Neighbours.visit b) (board.Neighbours.positions row col) 0 with
  | none => none
  | some neighbourCount => Grid.store neighbours row col neighbourCount

/-- The `row` loop body: `for col := range len(b.matrix[row])`. -/
def board.Neighbours.row (b : board) (row : Nat) (neighbours : List (List Nat)) :
    Option (List (List Nat)) :=
  match b.matrix[row]? with
  | none => none
  | some cells => forEach (board.Neighbours.cell b row) (List.range cells.length) neighbours

/-- The allocation at the head of `Neighbours`: `make([][]uint8, b.rows)` and one
`make([]uint8, b.columns)` per row. -/
def board.Neighbours.alloc (b : board) : Option (List (List Nat)) :=
  match make ([] : List Nat) b.rows with
  | none => none
  | some neighbours =>
    forEach
      (fun i nb =>
        match make (0 : Nat) b.columns with
        | none => none
        | some r => Grid.storeRow nb i r)
      (List.range neighbours.length) neighbours

/-- Go: `func (b *board) Neighbours() [][]uint8`, returning the board after the call
together with the result. -/
def board.Neighbours (b : board) : Option (board × List (List Nat)) :=
  match board.Neighbours.alloc b with
  | none => none
  | some neighbours =>
    match forEach (board.Neighbours.row b) (List.range b.matrix.length) neighbours with
    | none => none
    | some neighbours => some (b, neighbours)

/-! ## `board.Iterate` -/

/-- Body of the `j` loop of `Iterate`: `cell, err := b.Cell(i, j)`, the early
`return err`, then `cell.Iterate(neighbours[i][j])` through the pointer. -/
def board.Iterate.cell (neighbours : List (List Nat)) (i j : Nat) (b : board) : Flow board error :=
  match b.Cell i j with
  | none => Flow.panic
  | some (cell, err) =>
    if err ≠ none then Flow.ret b err
    else
      match Grid.at? neighbours i j with
      | none => Flow.panic
      | some n =>
        match cell with
        | none => Flow.panic
        | some p =>
          match b.load p with
          | none => Flow.panic
          | some c =>
            match b.store p (c.Iterate n) with
            | none => Flow.panic
            | some b1 => Flow.next b1

/-- Body of the `i` loop of `Iterate`: `for j := range len(b.matrix[i])`. -/
def board.Iterate.row (neighbours : List (List Nat)) (i : Nat) (b : board) : Flow board error :=
  match b.matrix[i]? with
  | none => Flow.panic
  | some cells => forRet (board.Iterate.cell neighbours i) (List.range cells.length) b

/-- Go: `func (b *board) Iterate() error`, returning the board after the call
together with the error. -/
def board.Iterate (b : board) : Option (board × error) :=
  match b.Neighbours with
  | none => none
  | some (b0, neighbours) =>
    match forRet (board.Iterate.row neighbours) (List.range b0.matrix.length) b0 with
    | Flow.next b1 => some (b1, none)
    | Flow.ret b1 err => some (b1, err)
    | Flow.panic => none

/-! ## Random initialisation -/

/-- The process-wide random source: the stream of raw draws and how many have
been consumed. -/
structure Rand where
  draws : Nat → Nat
  pos : Nat

/-- Go: `rand.Intn(n)`: panics for `n <= 0`, otherwise the next draw reduced to `[0, n)`. -/
def Rand.Intn (g : Rand) (n : Int) : Option (Nat × Rand) :=
  if n ≤ 0 then none else some (g.draws g.pos % n.toNat, { g with pos := g.pos + 1 })

/-- Body of the `j` loop of `Initialize`: copy the cell, overwrite `isAlive`
with `rand.Intn(100) < 20`, store the copy back. -/
def board.Initialize.cell (i j : Nat) (s : board × Rand) : Option (board × Rand) :=
  match Grid.at? s.1.matrix i j with
  | none => none
  | some cell =>
    match s.2.Intn 100 with
    | none => none
    | some (d, g) =>
      match Grid.store s.1.matrix i j { cell with isAlive := decide (d < 20) } with
      | none => none
      | some m => some ({ s.1 with matrix := m }, g)

/-- Body of the `i` loop of `Initialize`. -/
def board.Initialize.row (i : Nat) (s : board × Rand) : Option (board × Rand) :=
  match s.1.matrix[i]? with
  | none => none
  | some cells => forEach (board.Initialize.cell i) (List.range cells.length) s

/-- Go: `func (b *board) Initialize()`, with the random source threaded through. -/
def board.Initialize (b : board) (g : Rand) : Option (board × Rand) :=
  forEach board.Initialize.row (List.range b.matrix.length) (b, g)

/-- Body of the loop of `NewBoard`: `b.matrix[i] = make([]Cell, columns)`. -/
def NewBoard.row (columns : Int) (i : Nat) (b : board) : Option board :=
  match make (GameOfLife.Cell.mk false) columns with
  | none => none
  | some r =>
    match Grid.storeRow b.matrix i r with
    | none => none
    | some m1 => some { b with matrix := m1 }

/-- Go: `func NewBoard(rows, columns int) *board`, with the random source threaded through. -/
def NewBoard (rows columns : Int) (g : Rand) : Option (board × Rand) :=
  match make ([] : List GameOfLife.Cell) rows with
  | none => none
  | some m =>
    match forEach (NewBoard.row columns) (List.range m.length)
        { rows := rows, columns := columns, matrix := m } with
    | none => none
    | some b => b.Initialize g

/-! ## `board.String` -/

/-- Body of the `j` loop of `String`: one `sb.WriteString` of the glyph. -/
def board.String.cell (b : board) (i j : Nat) (sb : String) : Option String :=
  match Grid.at? b.matrix i j with
  | none => none
  | some cell => if cell.isAlive then some (sb ++ " * ") else some (sb ++ "   ")

/-- Body of the `i` loop of `String`: the glyphs of the row, then the newline. -/
def board.String.row (b : board) (i : Nat) (sb : String) : Option String :=
  match b.matrix[i]? with
  | none => none
  | some cells =>
    match forEach (board.String.cell b i) (List.range cells.length) sb with
    | none => none
    | some sb1 => some (sb1 ++ "\n")

/-- Go: `func (b *board) String() string`, returning the board after the call
together with the result. -/
def board.String (b : board) : Option (board × String) :=
  match forEach (board.String.row b) (List.range b.matrix.length) "" with
  | none => none
  | some sb => some (b, sb)

/-! ## Test boards -/

/-- Build a board with the given fields from rows of booleans (`true` is alive). -/
def mkBoard (rows columns : Nat) (cells : List (List Bool)) : board :=
  { rows := rows, columns := columns, matrix := cells.map (fun r => r.map Cell.mk) }

/-- The 5x5 board whose only live cells are (1,1), (1,3), (3,1), (3,3). -/
def diagonals5 : board :=
  mkBoard 5 5
    [ [false, false, false, false, false],
      [false, true,  false, true,  false],
      [false, false, false, false, false],
      [false, true,  false, true,  false],
      [false, false, false, false, false] ]

/-- The 3x3 board whose only live cells are the top row (0,0), (0,1), (0,2). -/
def topRow3 : board :=
  mkBoard 3 3
    [ [true,  true,  true],
      [false, false, false],
      [false, false, false] ]

/-! ## Specification-side definitions -/

/-- Spec: the position `(r, c)` lies inside `[0, rows) x [0, columns)`. -/
def board.inside (b : board) (r c : Int) : Prop :=
  0 ≤ r ∧ r < b.rows ∧ 0 ≤ c ∧ c < b.columns

instance (b : board) (r c : Int) : Decidable (b.inside r c) := by
  unfold board.inside; infer_instance

/-- Spec: the position `(r, c)` lies inside the grid and holds a live cell. -/
def board.liveAt (b : board) (r c : Int) : Bool :=
  decide (b.inside r c) &&
    (match Grid.at? b.matrix r.toNat c.toNat with
     | some cell => cell.isAlive
     | none => false)

/-- Spec: the eight offsets to the adjacent positions; `(0, 0)` is not among them. -/
def neighbourOffsets : List (Int × Int) :=
  [(-1, -1), (-1, 0), (-1, 1), (0, -1), (0, 1), (1, -1), (1, 0), (1, 1)]

/-- Spec: the number of adjacent positions that lie inside the grid and hold a
live cell. -/
def board.liveNeighbours (b : board) (r c : Nat) : Nat :=
  (neighbourOffsets.filter (fun d => b.liveAt ((r : Int) + d.1) ((c : Int) + d.2))).length

/-- Spec: the transition rule as the spec tabulates it for the source. -/
def ruleOfSource (alive : Bool) (count : Nat) : Bool :=
  if alive then
    if count < 2 then false
    else if count > 3 then false
    else true
  else
    if count > 3 then true else false

/-- Spec: a grid has the shape of the board: as many rows as the matrix, each
`columns` long. -/
def board.ShapeOf (b : board) {α : Type} (g : List (List α)) : Prop :=
  g.length = b.matrix.length ∧ ∀ (r : Nat) (row : List α), g[r]? = some row → (row.length : Int) = b.columns

/-- Spec: the next generation as a pure pointwise map over the snapshot `b`:
every cell gets the rule applied to its own state and its count in `b`. -/
def board.pureStep (b : board) : List (List GameOfLife.Cell) :=
  b.matrix.mapIdx (fun r row =>
    row.mapIdx (fun c x => GameOfLife.Cell.mk (ruleOfSource x.isAlive (b.liveNeighbours r c))))

/-- Spec: the value `Iterate` leaves in slot `(r, c)`: the rule applied to the slot of
the snapshot `m` and to its count in `nb`. -/
def board.Iterate.target (m : List (List GameOfLife.Cell)) (nb : List (List Nat)) (r c : Nat) :
    Option GameOfLife.Cell :=
  match Grid.at? m r c, Grid.at? nb r c with
  | some x, some n => some (x.Iterate n)
  | _, _ => none

/-- Spec: the fixed 3-character glyph of a cell (ASCII, so its length in
characters is its length in bytes). -/
def glyph (c : Cell) : String :=
  if c.isAlive then " * " else "   "

/-- Spec: the concatenation of a list of strings, in order. -/
def concat : List String → String
  | [] => ""
  | s :: ss => s ++ concat ss

/-- Spec: the text of one row, its cells rendered left to right. -/
def renderLine (row : List Cell) : String :=
  concat (row.map glyph)

/-- Spec: the text of the grid, every row followed by one newline. -/
def render (m : List (List Cell)) : String :=
  concat (m.map (fun row => renderLine row ++ "\n"))

/-! ## The driver loop, further boards, counting and symmetries -/

/-- The 5x5 board whose live cells are the centre (2,2) and its four diagonal
neighbours (1,1), (1,3), (3,1), (3,3). -/
def centre5 : board :=
  mkBoard 5 5
    [ [false, false, false, false, false],
      [false, true,  false, true,  false],
      [false, false, true,  false, false],
      [false, true,  false, true,  false],
      [false, false, false, false, false] ]

/-- The driver's use of the board, as in `mainOld` and `Update`: `n` successive
calls `b.Iterate()` whose returned error is dropped. -/
def board.IterateN : Nat → board → Option board
  | 0, b => some b
  | n + 1, b =>
    match b.Iterate with
    | none => none
    | some (b1, _) => board.IterateN n b1

/-- Spec: the value the `k`-th next call of `rand.Intn(100)` returns on the
source `g` (`k` counted from 0). -/
def Rand.nth (g : Rand) (k : Nat) : Nat :=
  g.draws (g.pos + k) % 100

/-- The degenerate board with no rows and no columns. -/
def emptyBoard : board :=
  { rows := 0, columns := 0, matrix := [] }

/-- Spec: the sum of `f` over the eight positions adjacent to `(r, c)`. -/
def sum8 (f : Int → Int → Nat) (r c : Int) : Nat :=
  f (r - 1) (c - 1) + f (r - 1) c + f (r - 1) (c + 1) +
  f r (c - 1) + f r (c + 1) +
  f (r + 1) (c - 1) + f (r + 1) c + f (r + 1) (c + 1)

/-- Spec: 1 for a position inside the grid that holds a live cell, 0 otherwise. -/
def board.liveCount (b : board) (r c : Int) : Nat :=
  if b.liveAt r c then 1 else 0

/-- The 4x4 board whose only live cells are the 2x2 block (1,1), (1,2), (2,1), (2,2). -/
def block4 : board :=
  mkBoard 4 4
    [ [false, false, false, false],
      [false, true,  true,  false],
      [false, true,  true,  false],
      [false, false, false, false] ]

/-- Spec: the grid `g` (of `rows` rows of `columns` items) transposed: row `c`
of the result is column `c` of `g`; `d` stands in for a missing item. -/
def Grid.transpose {α : Type} (rows columns : Nat) (d : α) (g : List (List α)) : List (List α) :=
  (List.range columns).map (fun c => (List.range rows).map (fun r => (Grid.at? g r c).getD d))

/-- Spec: the board with the order of its rows reversed. -/
def board.flipRows (b : board) : board :=
  { b with matrix := b.matrix.reverse }

/-- Spec: the board with the order of the cells reversed in every row. -/
def board.flipColumns (b : board) : board :=
  { b with matrix := b.matrix.map List.reverse }

/-- Spec: the board transposed, `rows x columns` to `columns x rows` (on a
well-formed board with at least one row `columns.toNat` is `columns`). -/
def board.transpose (b : board) : board :=
  { rows := (b.columns.toNat : Int),
    columns := (b.matrix.length : Int),
    matrix := Grid.transpose b.matrix.length b.columns.toNat (GameOfLife.Cell.mk false) b.matrix }

/-! ## Loop rules -/

theorem forEach_append {ι σ : Type} (body : ι → σ → Option σ) (xs ys : List ι) (s : σ) :
    forEach body (xs ++ ys) s = (forEach body xs s).bind (forEach body ys) := by
  induction xs generalizing s with
  | nil => simp [forEach]
  | cons x xs ih =>
    simp only [List.cons_append, forEach]
    cases body x s with
    | none => simp
    | some s1 => simpa using ih s1

theorem forRet_append_next {ι σ ρ : Type} (body : ι → σ → Flow σ ρ) (xs ys : List ι) (s s1 : σ)
    (h : forRet body xs s = Flow.next s1) :
    forRet body (xs ++ ys) s = forRet body ys s1 := by
  induction xs generalizing s with
  | nil => simp [forRet] at h; subst h; rfl
  | cons x xs ih =>
    simp only [List.cons_append, forRet] at h ⊢
    cases hb : body x s with
    | next s2 => rw [hb] at h; simpa using ih s2 h
    | ret s2 r => rw [hb] at h; simp at h
    | panic => rw [hb] at h; simp at h

/-- Invariant rule for a `for k := range n` loop without `return`. -/
theorem forEach_range_inv {σ : Type} (body : Nat → σ → Option σ) (P : Nat → σ → Prop)
    (n : Nat) (s0 : σ) (h0 : P 0 s0)
    (hstep : ∀ k s, k < n → P k s → ∃ s1, body k s = some s1 ∧ P (k + 1) s1) :
    ∃ s1, forEach body (List.range n) s0 = some s1 ∧ P n s1 := by
  induction n with
  | zero => exact ⟨s0, by simp [forEach], h0⟩
  | succ n ih =>
    obtain ⟨s1, h1, hP⟩ := ih (fun k s hk hs => hstep k s (Nat.lt_succ_of_lt hk) hs)
    obtain ⟨s2, h2, hP2⟩ := hstep n s1 (Nat.lt_succ_self n) hP
    refine ⟨s2, ?_, hP2⟩
    rw [List.range_succ, forEach_append, h1]
    simp [forEach, h2]

/-- Invariant rule for a `for k := range n` loop whose body never takes its `return`. -/
theorem forRet_range_inv {σ ρ : Type} (body : Nat → σ → Flow σ ρ) (P : Nat → σ → Prop)
    (n : Nat) (s0 : σ) (h0 : P 0 s0)
    (hstep : ∀ k s, k < n → P k s → ∃ s1, body k s = Flow.next s1 ∧ P (k + 1) s1) :
    ∃ s1, forRet body (List.range n) s0 = Flow.next s1 ∧ P n s1 := by
  induction n with
  | zero => exact ⟨s0, by simp [forRet], h0⟩
  | succ n ih =>
    obtain ⟨s1, h1, hP⟩ := ih (fun k s hk hs => hstep k s (Nat.lt_succ_of_lt hk) hs)
    obtain ⟨s2, h2, hP2⟩ := hstep n s1 (Nat.lt_succ_self n) hP
    refine ⟨s2, ?_, hP2⟩
    rw [List.range_succ, forRet_append_next body _ _ s0 s1 h1]
    simp [forRet, h2]

/-! ## Two-dimensional slices -/

theorem Grid.at?_eq_some_iff {α : Type} (g : List (List α)) (r c : Nat) (x : α) :
    Grid.at? g r c = some x ↔ ∃ row, g[r]? = some row ∧ row[c]? = some x := by
  unfold Grid.at?
  cases g[r]? <;> simp

theorem Grid.at?_of_row {α : Type} {g : List (List α)} {r : Nat} {row : List α}
    (h : g[r]? = some row) (c : Nat) : Grid.at? g r c = row[c]? := by
  simp [Grid.at?, h]

/-- A store into an existing slot succeeds, keeps the shape and changes that slot only. -/
theorem Grid.store_spec {α : Type} (g : List (List α)) (r c : Nat) (v : α) (row : List α)
    (hr : g[r]? = some row) (hc : c < row.length) :
    ∃ g1, Grid.store g r c v = some g1 ∧ g1.length = g.length ∧
      (∀ (r1 : Nat) (row1 : List α), g1[r1]? = some row1 →
        ∃ row0 : List α, g[r1]? = some row0 ∧ row1.length = row0.length) ∧
      (∀ r1 c1 : Nat, Grid.at? g1 r1 c1 = if r1 = r ∧ c1 = c then some v else Grid.at? g r1 c1) := by
  have hrl : r < g.length := by
    rcases List.getElem?_eq_some_iff.mp hr with ⟨h, _⟩; exact h
  refine ⟨g.set r (row.set c v), by simp [Grid.store, hr, hc], by simp, ?_, ?_⟩
  · intro r1 row1 h1
    rw [List.getElem?_set] at h1
    by_cases e : r = r1
    · subst e
      simp [hrl] at h1
      exact ⟨row, hr, by rw [← h1]; simp⟩
    · simp [e] at h1
      exact ⟨row1, h1, rfl⟩
  · intro r1 c1
    unfold Grid.at?
    rw [List.getElem?_set]
    by_cases e : r = r1
    · subst e
      simp only [hrl, if_true, true_and, hr]
      rw [List.getElem?_set]
      by_cases e2 : c = c1
      · subst e2; simp [hc]
      · have : ¬ c1 = c := fun h => e2 h.symm
        simp [e2, this]
    · have : ¬ r1 = r := fun h => e h.symm
      simp [e, this]


/-! ## `board.Cell` -/

theorem board.WellFormed.row_length {b : board} (h : b.WellFormed) {r : Nat} {row : List GameOfLife.Cell}
    (hr : b.matrix[r]? = some row) : (row.length : Int) = b.columns :=
  h.2 row (List.getElem?_mem hr)

/-- Inside the grid `Cell` returns the pointer to the addressed slot and a nil error. -/
theorem board.Cell_inside {b : board} (h : b.WellFormed) (row column : Int)
    (hin : b.inside row column) :
    b.Cell row column = some (some ⟨row.toNat, column.toNat⟩, none) ∧
      ∃ x, Grid.at? b.matrix row.toNat column.toNat = some x := by
  obtain ⟨h0, h1, h2, h3⟩ := hin
  have hlen : row.toNat < b.matrix.length := by have := h.1; omega
  obtain ⟨cells, hcells⟩ : ∃ cells, b.matrix[row.toNat]? = some cells :=
    ⟨_, List.getElem?_eq_getElem hlen⟩
  have hc := h.row_length hcells
  have hclen : column.toNat < cells.length := by omega
  have hx : Grid.at? b.matrix row.toNat column.toNat = some (cells[column.toNat]) := by
    rw [Grid.at?_of_row hcells]; exact List.getElem?_eq_getElem hclen
  refine ⟨?_, _, hx⟩
  unfold board.Cell
  rw [if_neg (by omega), if_neg (by omega), if_neg (by omega), if_neg (by omega), hx]

/-- Outside the grid `Cell` returns no pointer and one of the four errors. -/
theorem board.Cell_outside (b : board) {row column : Int} (hout : ¬ b.inside row column) :
    ∃ msg, b.Cell row column = some (none, some msg) := by
  unfold board.inside at hout
  unfold board.Cell
  by_cases h1 : row < 0
  · exact ⟨_, by rw [if_pos h1]⟩
  · by_cases h2 : row > b.rows - 1
    · exact ⟨_, by rw [if_neg h1, if_pos h2]⟩
    · by_cases h3 : column < 0
      · exact ⟨_, by rw [if_neg h1, if_neg h2, if_pos h3]⟩
      · by_cases h4 : column > b.columns - 1
        · exact ⟨_, by rw [if_neg h1, if_neg h2, if_neg h3, if_pos h4]⟩
        · exact absurd ⟨by omega, by omega, by omega, by omega⟩ hout

/-! ## `board.Neighbours` -/

/-- On a well-formed board one visit adds one exactly for a live inside position. -/
theorem board.Neighbours.visit_eq {b : board} (h : b.WellFormed) (pos : Position) (n : Nat) :
    board.Neighbours.visit b pos n =
      some (if b.liveAt pos.Row pos.Column then (n + 1) % 256 else n) := by
  unfold board.Neighbours.visit board.liveAt
  by_cases hin : b.inside pos.Row pos.Column
  · obtain ⟨hc, x, hx⟩ := board.Cell_inside h _ _ hin
    simp only [hc, board.load, hx, hin, decide_True, Bool.true_and, if_true]
    split <;> rfl
  · obtain ⟨msg, hc⟩ := board.Cell_outside b hin
    simp [hc, hin]

/-- The counting loop adds the number of live inside positions (no `uint8` wrap
as long as the list is short). -/
theorem board.Neighbours.count_eq {b : board} (h : b.WellFormed) (ps : List Position) (n : Nat)
    (hn : n + ps.length < 256) :
    forEach (board.Neighbours.visit b) ps n =
      some (n + (ps.filter (fun p => b.liveAt p.Row p.Column)).length) := by
  induction ps generalizing n with
  | nil => simp [forEach]
  | cons p ps ih =>
    simp only [forEach, board.Neighbours.visit_eq h, List.length_cons] at hn ⊢
    by_cases hl : b.liveAt p.Row p.Column
    · simp only [hl, if_true, List.filter_cons_of_pos, List.length_cons]
      rw [Nat.mod_eq_of_lt (by omega), ih (n + 1) (by omega)]
      congr 1; omega
    · simp only [hl, Bool.false_eq_true, if_false, not_false_eq_true, List.filter_cons_of_neg]
      exact ih n (by omega)

theorem board.Neighbours.positions_eq (row col : Int) :
    board.Neighbours.positions row col =
      neighbourOffsets.map (fun d => (⟨row + d.1, col + d.2⟩ : Position)) := by
  simp [board.Neighbours.positions, neighbourOffsets, Int.sub_eq_add_neg]

/-- The counter of one cell: the spec's count of live adjacent positions. -/
theorem board.Neighbours.count_positions {b : board} (h : b.WellFormed) (r c : Nat) :
    forEach (board.Neighbours.visit b) (board.Neighbours.positions r c) 0 =
      some (b.liveNeighbours r c) := by
  rw [board.Neighbours.count_eq h _ 0 (by simp [board.Neighbours.positions])]
  rw [board.Neighbours.positions_eq, List.filter_map, List.length_map]
  simp [board.liveNeighbours, Function.comp_def]


theorem board.ShapeOf.store {b : board} {α : Type} {g : List (List α)} (hg : b.ShapeOf g)
    {r c : Nat} (hr : r < b.matrix.length) (hc : (c : Int) < b.columns) (v : α) :
    ∃ g1, Grid.store g r c v = some g1 ∧ b.ShapeOf g1 ∧
      (∀ r1 c1 : Nat, Grid.at? g1 r1 c1 = if r1 = r ∧ c1 = c then some v else Grid.at? g r1 c1) := by
  have hlen : r < g.length := by rw [hg.1]; exact hr
  have hrow : g[r]? = some g[r] := List.getElem?_eq_getElem hlen
  have hcl : c < (g[r]).length := by have := hg.2 r _ hrow; omega
  obtain ⟨g1, h1, h2, h3, h4⟩ := Grid.store_spec g r c v _ hrow hcl
  refine ⟨g1, h1, ⟨by rw [h2, hg.1], ?_⟩, h4⟩
  intro r1 row1 hr1
  obtain ⟨row0, hrow0, hl⟩ := h3 r1 row1 hr1
  rw [hl]; exact hg.2 r1 row0 hrow0

/-- The allocation of `Neighbours` succeeds on a well-formed board and has its shape. -/
theorem board.Neighbours.alloc_spec {b : board} (h : b.WellFormed) :
    ∃ nb, board.Neighbours.alloc b = some nb ∧ b.ShapeOf nb := by
  have hrows : ¬ b.rows < 0 := by have := h.1; omega
  have hR : b.rows.toNat = b.matrix.length := by have := h.1; omega
  unfold board.Neighbours.alloc make
  rw [if_neg hrows]
  simp only [List.length_replicate, hR]
  obtain ⟨nb, h1, h2, h3⟩ := forEach_range_inv
    (fun i nb =>
        match (if b.columns < 0 then none else some (List.replicate b.columns.toNat (0 : Nat))) with
        | none => none
        | some r => Grid.storeRow nb i r)
    (fun k nb => nb.length = b.matrix.length ∧
      ∀ (r : Nat) (row : List Nat), r < k → nb[r]? = some row → (row.length : Int) = b.columns)
    b.matrix.length (List.replicate b.matrix.length ([] : List Nat))
    ⟨by simp, by intro r row hr; omega⟩
    (by
      intro k nb hk ⟨hl, hsh⟩
      have hcol : ¬ b.columns < 0 := by
        have := h.row_length (List.getElem?_eq_getElem hk); omega
      refine ⟨nb.set k (List.replicate b.columns.toNat 0), ?_, by simpa using hl, ?_⟩
      · simp [hcol, Grid.storeRow, hl, hk]
      · intro r row hr hrow
        rw [List.getElem?_set] at hrow
        by_cases e : k = r
        · subst e
          simp [hl, hk] at hrow
          rw [← hrow]; simp; omega
        · simp [e] at hrow
          exact hsh r row (by omega) hrow)
  refine ⟨nb, h1, h2, ?_⟩
  intro r row hrow
  have : r < nb.length := by
    rcases List.getElem?_eq_some_iff.mp hrow with ⟨hlt, _⟩; exact hlt
  exact h3 r row (by omega) hrow

/-- The loops of `Neighbours` on a well-formed board: no panic, the board is
returned as it was, the result has the shape of the board and holds at every
cell the spec's count of live adjacent positions. -/
theorem board.Neighbours_spec {b : board} (h : b.WellFormed) :
    ∃ nb, b.Neighbours = some (b, nb) ∧ b.ShapeOf nb ∧
      ∀ r c : Nat, r < b.matrix.length → (c : Int) < b.columns →
        Grid.at? nb r c = some (b.liveNeighbours r c) := by
  obtain ⟨nb0, halloc, hsh0⟩ := board.Neighbours.alloc_spec h
  obtain ⟨nb, h1, hsh, hval⟩ := forEach_range_inv (board.Neighbours.row b)
    (fun k nb => b.ShapeOf nb ∧
      ∀ r c : Nat, r < k → (c : Int) < b.columns → Grid.at? nb r c = some (b.liveNeighbours r c))
    b.matrix.length nb0 ⟨hsh0, by intro r c hr; omega⟩
    (by
      intro i nbi hi ⟨hshi, hvali⟩
      have hcells : b.matrix[i]? = some b.matrix[i] := List.getElem?_eq_getElem hi
      have hcl := h.row_length hcells
      unfold board.Neighbours.row
      rw [hcells]
      obtain ⟨nbj, hj1, hj2, hj3, hj4⟩ := forEach_range_inv (board.Neighbours.cell b i)
        (fun j nb => b.ShapeOf nb ∧
          (∀ r c : Nat, r < i → (c : Int) < b.columns →
            Grid.at? nb r c = some (b.liveNeighbours r c)) ∧
          (∀ c : Nat, c < j → Grid.at? nb i c = some (b.liveNeighbours i c)))
        (b.matrix[i]).length nbi ⟨hshi, hvali, by intro c hc; omega⟩
        (by
          intro j nbj hj ⟨hs, hprev, hcur⟩
          obtain ⟨g1, hst, hs1, hat⟩ := hs.store hi (by omega : (j : Int) < b.columns)
            (b.liveNeighbours i j)
          refine ⟨g1, ?_, hs1, ?_, ?_⟩
          · unfold board.Neighbours.cell
            rw [board.Neighbours.count_positions h]
            exact hst
          · intro r c hr hc
            rw [hat, if_neg (by omega)]
            exact hprev r c hr hc
          · intro c hc
            rw [hat]
            by_cases e : c = j
            · subst e; simp
            · rw [if_neg (by tauto)]
              exact hcur c (by omega))
      refine ⟨nbj, hj1, hj2, ?_⟩
      intro r c hr hc
      by_cases e : r = i
      · subst e
        exact hj4 c (by omega)
      · exact hj3 r c (by omega) hc)
  refine ⟨nb, ?_, hsh, hval⟩
  unfold board.Neighbours
  rw [halloc]
  simp only [h1]


/-! ## `board.Iterate` -/

theorem board.shapeOf_matrix {b : board} (h : b.WellFormed) : b.ShapeOf b.matrix :=
  ⟨rfl, fun _ _ hr => h.row_length hr⟩

theorem board.wellFormed_of_shape {b b1 : board} (h : b.WellFormed) (hr : b1.rows = b.rows)
    (hc : b1.columns = b.columns) (hs : b.ShapeOf b1.matrix) : b1.WellFormed := by
  refine ⟨by rw [hr, h.1, hs.1], ?_⟩
  intro row hrow
  obtain ⟨n, hn⟩ := List.mem_iff_getElem?.mp hrow
  rw [hc]; exact hs.2 n row hn

/-- Two grids with the same number of rows and the same slots are equal. -/
theorem Grid.ext {α : Type} {g1 g2 : List (List α)} (hl : g1.length = g2.length)
    (h : ∀ r c : Nat, Grid.at? g1 r c = Grid.at? g2 r c) : g1 = g2 := by
  apply List.ext_getElem?
  intro r
  by_cases hr : r < g1.length
  · obtain ⟨row1, h1⟩ : ∃ row1, g1[r]? = some row1 := ⟨_, List.getElem?_eq_getElem hr⟩
    obtain ⟨row2, h2⟩ : ∃ row2, g2[r]? = some row2 := ⟨_, List.getElem?_eq_getElem (hl ▸ hr)⟩
    rw [h1, h2]
    congr 1
    apply List.ext_getElem?
    intro c
    have := h r c
    rwa [Grid.at?_of_row h1, Grid.at?_of_row h2] at this
  · have h1 : g1[r]? = none := List.getElem?_eq_none (by omega)
    have h2 : g2[r]? = none := List.getElem?_eq_none (by omega)
    rw [h1, h2]

/-- One pass through the body of the `j` loop of `Iterate` on a well-formed
board: the lookup succeeds, there is no `return`, and exactly slot `(i, j)` is
overwritten with the rule applied to its current value. -/
theorem board.Iterate.cell_spec {b : board} (h : b.WellFormed) {nb : List (List Nat)}
    {i j n : Nat} (hi : i < b.matrix.length) (hj : (j : Int) < b.columns)
    (hn : Grid.at? nb i j = some n) :
    ∃ x b1, Grid.at? b.matrix i j = some x ∧
      b.Cell i j = some (some ⟨i, j⟩, none) ∧
      board.Iterate.cell nb i j b = Flow.next b1 ∧
      b1.rows = b.rows ∧ b1.columns = b.columns ∧ b.ShapeOf b1.matrix ∧
      ∀ r1 c1 : Nat, Grid.at? b1.matrix r1 c1 =
        if r1 = i ∧ c1 = j then some (x.Iterate n) else Grid.at? b.matrix r1 c1 := by
  have hin : b.inside i j := ⟨by omega, by have := h.1; omega, by omega, hj⟩
  obtain ⟨hcell, x, hx⟩ := board.Cell_inside h _ _ hin
  simp only [Int.toNat_ofNat] at hcell hx
  obtain ⟨g1, hst, hs1, hat⟩ := (board.shapeOf_matrix h).store hi hj (x.Iterate n)
  refine ⟨x, { b with matrix := g1 }, hx, hcell, ?_, rfl, rfl, hs1, hat⟩
  unfold board.Iterate.cell
  simp [hcell, hn, board.load, hx, board.store, hst]

theorem board.ShapeOf.congr {b b1 : board} {α : Type} {g : List (List α)} (hs : b1.ShapeOf g)
    (hl : b1.matrix.length = b.matrix.length) (hc : b1.columns = b.columns) : b.ShapeOf g :=
  ⟨by rw [hs.1, hl], fun r row hr => by rw [← hc]; exact hs.2 r row hr⟩

/-- The loops of `Iterate` on a well-formed board, for any grid of counts that
has the shape of the board: they end without `return` and without panic, keep
the fields and the shape, and leave in every slot the rule applied to the value
the slot had before the loops and to its own count. -/
theorem board.Iterate.loops_spec {b : board} (h : b.WellFormed) {nb : List (List Nat)}
    (hnb : ∀ r c : Nat, r < b.matrix.length → (c : Int) < b.columns →
      ∃ n, Grid.at? nb r c = some n) :
    ∃ b1, forRet (board.Iterate.row nb) (List.range b.matrix.length) b = Flow.next b1 ∧
      b1.rows = b.rows ∧ b1.columns = b.columns ∧ b.ShapeOf b1.matrix ∧
      ∀ r c : Nat, Grid.at? b1.matrix r c = board.Iterate.target b.matrix nb r c := by
  have hnone : ∀ r c : Nat, Grid.at? b.matrix r c = none →
      board.Iterate.target b.matrix nb r c = none := by
    intro r c hrc; simp [board.Iterate.target, hrc]
  obtain ⟨b1, h1, hr1, hc1, hs1, hv1⟩ := forRet_range_inv (board.Iterate.row nb)
    (fun k bk => bk.rows = b.rows ∧ bk.columns = b.columns ∧ b.ShapeOf bk.matrix ∧
      ∀ r c : Nat, Grid.at? bk.matrix r c =
        if r < k then board.Iterate.target b.matrix nb r c else Grid.at? b.matrix r c)
    b.matrix.length b ⟨rfl, rfl, board.shapeOf_matrix h, by intro r c; simp⟩
    (by
      intro i bi hi ⟨hri, hci, hsi, hvi⟩
      have hib : i < bi.matrix.length := by rw [hsi.1]; exact hi
      have hcells : bi.matrix[i]? = some bi.matrix[i] := List.getElem?_eq_getElem hib
      have hcl := hsi.2 i _ hcells
      unfold board.Iterate.row
      rw [hcells]
      obtain ⟨bj, hj1, hrj, hcj, hsj, hvj⟩ := forRet_range_inv (board.Iterate.cell nb i)
        (fun j bj => bj.rows = b.rows ∧ bj.columns = b.columns ∧ b.ShapeOf bj.matrix ∧
          ∀ r c : Nat, Grid.at? bj.matrix r c =
            if r < i ∨ (r = i ∧ c < j) then board.Iterate.target b.matrix nb r c
            else Grid.at? b.matrix r c)
        (bi.matrix[i]).length bi
        ⟨hri, hci, hsi, by
          intro r c
          rw [hvi]
          by_cases e : r < i
          · simp [e]
          · rw [if_neg e, if_neg (by omega)]⟩
        (by
          intro j bj hj ⟨hrj, hcj, hsj, hvj⟩
          have hwf : bj.WellFormed := board.wellFormed_of_shape h hrj hcj hsj
          have hjc : (j : Int) < b.columns := by omega
          obtain ⟨n, hn⟩ := hnb i j hi hjc
          obtain ⟨x, b2, hx, _, hstep, hr2, hc2, hs2, hv2⟩ :=
            board.Iterate.cell_spec hwf (by rw [hsj.1]; exact hi) (by rw [hcj]; exact hjc) hn
          have hx0 : Grid.at? b.matrix i j = some x := by
            rw [← hx, hvj, if_neg (by omega)]
          refine ⟨b2, hstep, by rw [hr2, hrj], by rw [hc2, hcj], hs2.congr hsj.1 hcj, ?_⟩
          intro r c
          rw [hv2]
          by_cases e : r = i ∧ c = j
          · obtain ⟨e1, e2⟩ := e
            subst e1; subst e2
            simp [board.Iterate.target, hx0, hn]
          · rw [if_neg e, hvj]
            by_cases e2 : r < i ∨ (r = i ∧ c < j)
            · rw [if_pos e2, if_pos (by omega)]
            · rw [if_neg e2, if_neg (by omega)])
      refine ⟨bj, hj1, hrj, hcj, hsj, ?_⟩
      intro r c
      rw [hvj]
      by_cases e : r < i
      · rw [if_pos (Or.inl e), if_pos (by omega)]
      · by_cases e2 : r = i
        · subst e2
          by_cases e3 : c < (bi.matrix[r]).length
          · rw [if_pos (Or.inr ⟨rfl, e3⟩), if_pos (Nat.lt_succ_self r)]
          · rw [if_neg (by omega), if_pos (Nat.lt_succ_self r)]
            have hbr : b.matrix[r]? = some b.matrix[r] := List.getElem?_eq_getElem hi
            have hbl := h.row_length hbr
            have : Grid.at? b.matrix r c = none := by
              rw [Grid.at?_of_row hbr]; exact List.getElem?_eq_none (by omega)
            rw [this, hnone r c this]
        · rw [if_neg (by omega), if_neg (by omega)])
  refine ⟨b1, h1, hr1, hc1, hs1, ?_⟩
  intro r c
  rw [hv1]
  by_cases e : r < b.matrix.length
  · rw [if_pos e]
  · rw [if_neg e]
    have : Grid.at? b.matrix r c = none := by
      simp [Grid.at?, List.getElem?_eq_none (by omega : b.matrix.length ≤ r)]
    rw [this, hnone r c this]

/-- The method `Iterate` on a well-formed board: no panic, a nil error, the fields and the
shape kept, and in every slot the rule applied to the slot of the board before
the call and to the spec's count of live adjacent positions in that board. -/
theorem board.Iterate_spec {b : board} (h : b.WellFormed) :
    ∃ b1, b.Iterate = some (b1, none) ∧
      b1.rows = b.rows ∧ b1.columns = b.columns ∧ b1.WellFormed ∧
      b1.matrix.length = b.matrix.length ∧
      ∀ r c : Nat, Grid.at? b1.matrix r c =
        (Grid.at? b.matrix r c).map (fun x => x.Iterate (b.liveNeighbours r c)) := by
  obtain ⟨nb, hN, hsh, hval⟩ := board.Neighbours_spec h
  obtain ⟨b1, h1, hr1, hc1, hs1, hv1⟩ := board.Iterate.loops_spec h
    (fun r c hr hc => ⟨_, hval r c hr hc⟩)
  refine ⟨b1, ?_, hr1, hc1, board.wellFormed_of_shape h hr1 hc1 hs1, hs1.1, ?_⟩
  · unfold board.Iterate
    rw [hN]
    simp only [h1]
  · intro r c
    rw [hv1]
    unfold board.Iterate.target
    cases hx : Grid.at? b.matrix r c with
    | none => simp
    | some x =>
      obtain ⟨row, hrow, hxc⟩ := (Grid.at?_eq_some_iff _ _ _ _).mp hx
      have hr : r < b.matrix.length := by
        rcases List.getElem?_eq_some_iff.mp hrow with ⟨hlt, _⟩; exact hlt
      have hc : c < row.length := by
        rcases List.getElem?_eq_some_iff.mp hxc with ⟨hlt, _⟩; exact hlt
      have hl := h.row_length hrow
      rw [hval r c hr (by omega)]
      simp

/-! ## The transition rule -/

/-- The method `Cell.Iterate` computes the rule the spec tabulates. -/
theorem Cell.Iterate_eq_rule (x : Cell) (n : Nat) :
    x.Iterate n = ⟨ruleOfSource x.isAlive n⟩ := by
  cases x with
  | mk a =>
    cases a <;> by_cases h1 : n < 2 <;> by_cases h2 : n > 3 <;>
      simp [Cell.Iterate, ruleOfSource, h1, h2]

theorem ruleOfSource_table (a : Bool) (n : Nat) :
    (a = true → n < 2 → ruleOfSource a n = false) ∧
    (a = true → n > 3 → ruleOfSource a n = false) ∧
    (a = true → (n = 2 ∨ n = 3) → ruleOfSource a n = true) ∧
    (a = false → n > 3 → ruleOfSource a n = true) ∧
    (a = false → n ≤ 3 → ruleOfSource a n = false) := by
  refine ⟨?_, ?_, ?_, ?_, ?_⟩ <;> intro ha hn <;> subst ha <;>
    by_cases h1 : n < 2 <;> by_cases h2 : n > 3 <;>
    first
      | omega
      | simp [ruleOfSource, h1, h2]

/-- On a well-formed board every slot inside the grid exists. -/
theorem board.WellFormed.at?_inside {b : board} (h : b.WellFormed) {r c : Nat}
    (hr : (r : Int) < b.rows) (hc : (c : Int) < b.columns) :
    ∃ x, Grid.at? b.matrix r c = some x := by
  have := (board.Cell_inside h (r : Int) (c : Int) ⟨by omega, hr, by omega, hc⟩).2
  simpa using this

theorem board.pureStep_at? (b : board) (r c : Nat) :
    Grid.at? b.pureStep r c =
      (Grid.at? b.matrix r c).map (fun x => Cell.mk (ruleOfSource x.isAlive (b.liveNeighbours r c))) := by
  unfold board.pureStep Grid.at?
  rw [List.getElem?_mapIdx]
  cases hrow : b.matrix[r]? with
  | none => simp
  | some row => simp [List.getElem?_mapIdx]

/-- C1: on a well-formed board `Iterate` ends with a nil error and every cell
inside the grid holds the rule applied to its own state and to its live
neighbour count in the board as it was before the call (the count `Neighbours`
computes on that board): alive with count < 2 dies, alive with count > 3 dies,
alive with count 2 or 3 stays alive, dead with count > 3 becomes alive, dead
with count <= 3 stays dead.  The in-place update is the pure pointwise map
`pureStep` over the snapshot. -/
theorem C1_iterate_is_pointwise_rule_on_snapshot (b : board) (h : b.WellFormed) :
    ∃ b1 nb, b.Neighbours = some (b, nb) ∧ b.Iterate = some (b1, none) ∧
      b1.matrix = b.pureStep ∧
      ∀ r c : Nat, (r : Int) < b.rows → (c : Int) < b.columns →
        ∃ x n y, Grid.at? b.matrix r c = some x ∧ Grid.at? nb r c = some n ∧
          Grid.at? b1.matrix r c = some y ∧
          y.isAlive = ruleOfSource x.isAlive n ∧
          (x.isAlive = true → n < 2 → y.isAlive = false) ∧
          (x.isAlive = true → n > 3 → y.isAlive = false) ∧
          (x.isAlive = true → (n = 2 ∨ n = 3) → y.isAlive = true) ∧
          (x.isAlive = false → n > 3 → y.isAlive = true) ∧
          (x.isAlive = false → n ≤ 3 → y.isAlive = false) := by
  obtain ⟨nb, hN, _, hval⟩ := board.Neighbours_spec h
  obtain ⟨b1, hI, _, _, _, hlen, hv⟩ := board.Iterate_spec h
  refine ⟨b1, nb, hN, hI, ?_, ?_⟩
  · apply Grid.ext
    · rw [hlen]; simp [board.pureStep]
    · intro r c
      rw [hv, board.pureStep_at?]
      cases Grid.at? b.matrix r c <;> simp [Cell.Iterate_eq_rule]
  · intro r c hr hc
    obtain ⟨x, hx⟩ := h.at?_inside hr hc
    have hrl : r < b.matrix.length := by have := h.1; omega
    refine ⟨x, b.liveNeighbours r c, ⟨ruleOfSource x.isAlive (b.liveNeighbours r c)⟩,
      hx, hval r c hrl hc, ?_, rfl, ?_⟩
    · rw [hv, hx]; simp [Cell.Iterate_eq_rule]
    · exact ruleOfSource_table _ _

/-- C1 at the 5x5 board whose only live cells are (1,1), (1,3), (3,1), (3,3):
the centre (2,2) is dead with count 4 and alive after one `Iterate`. -/
theorem C1_iterate_is_pointwise_rule_on_snapshot_witness :
    diagonals5.WellFormed ∧
    (∃ b1 nb, diagonals5.Neighbours = some (diagonals5, nb) ∧
      diagonals5.Iterate = some (b1, none) ∧
      Grid.at? diagonals5.matrix 2 2 = some ⟨false⟩ ∧
      Grid.at? nb 2 2 = some 4 ∧
      Grid.at? b1.matrix 2 2 = some ⟨true⟩) := by
  refine ⟨by decide, ?_⟩
  obtain ⟨b1, nb, hN, hI, _, _⟩ :=
    C1_iterate_is_pointwise_rule_on_snapshot diagonals5 (by decide)
  refine ⟨b1, nb, hN, hI, by decide, ?_, ?_⟩
  · have e : diagonals5.Neighbours.bind (fun p => Grid.at? p.2 2 2) = some 4 := by decide
    rw [hN] at e; exact e
  · have e : diagonals5.Iterate.bind (fun p => Grid.at? p.1.matrix 2 2) = some ⟨true⟩ := by decide
    rw [hI] at e; exact e

/-- C2: the code does not implement the classic rule.  On the 3x3 board whose
top row is alive the dead centre (1,1) has exactly 3 live neighbours and is
still dead after `Iterate` (classic Life: born); on the 5x5 board with the four
diagonal cells alive the dead centre (2,2) has 4 live neighbours and is alive
after `Iterate` (classic Life: stays dead). -/
theorem C2_birth_threshold_is_not_classic :
    topRow3.WellFormed ∧
    (topRow3.Neighbours.bind (fun p => Grid.at? p.2 1 1) = some 3 ∧
      Grid.at? topRow3.matrix 1 1 = some ⟨false⟩ ∧
      topRow3.Iterate.bind (fun p => Grid.at? p.1.matrix 1 1) = some ⟨false⟩) ∧
    diagonals5.WellFormed ∧
    (diagonals5.Neighbours.bind (fun p => Grid.at? p.2 2 2) = some 4 ∧
      Grid.at? diagonals5.matrix 2 2 = some ⟨false⟩ ∧
      diagonals5.Iterate.bind (fun p => Grid.at? p.1.matrix 2 2) = some ⟨true⟩) := by
  decide

/-- The spec's count with the eight adjacent positions written out. -/
theorem board.liveNeighbours_eq_explicit (b : board) (r c : Nat) :
    b.liveNeighbours r c =
      (([((r : Int) - 1, (c : Int) - 1), ((r : Int) - 1, (c : Int)), ((r : Int) - 1, (c : Int) + 1),
         ((r : Int), (c : Int) - 1), ((r : Int), (c : Int) + 1),
         ((r : Int) + 1, (c : Int) - 1), ((r : Int) + 1, (c : Int)), ((r : Int) + 1, (c : Int) + 1)]
        : List (Int × Int)).filter (fun p => b.liveAt p.1 p.2)).length := by
  have e : ([((r : Int) - 1, (c : Int) - 1), ((r : Int) - 1, (c : Int)), ((r : Int) - 1, (c : Int) + 1),
         ((r : Int), (c : Int) - 1), ((r : Int), (c : Int) + 1),
         ((r : Int) + 1, (c : Int) - 1), ((r : Int) + 1, (c : Int)), ((r : Int) + 1, (c : Int) + 1)]
        : List (Int × Int)) =
      neighbourOffsets.map (fun d => ((r : Int) + d.1, (c : Int) + d.2)) := by
    simp [neighbourOffsets, Int.sub_eq_add_neg]
  rw [e, List.filter_map, List.length_map]
  rfl

/-- C3: on a well-formed board, for every cell (r, c) inside the grid, the
entry `Neighbours()[r][c]` is the number of positions among the eight offsets
(r-1,c-1), (r-1,c), (r-1,c+1), (r,c-1), (r,c+1), (r+1,c-1), (r+1,c), (r+1,c+1)
that lie inside `[0, rows) x [0, columns)` and hold a live cell; a position
outside the grid contributes nothing, and the offset (0,0) is not listed. -/
theorem C3_neighbours_counts_live_adjacent_inside (b : board) (h : b.WellFormed) (r c : Nat)
    (hr : (r : Int) < b.rows) (hc : (c : Int) < b.columns) :
    ∃ nb, b.Neighbours = some (b, nb) ∧
      Grid.at? nb r c = some
        (([((r : Int) - 1, (c : Int) - 1), ((r : Int) - 1, (c : Int)), ((r : Int) - 1, (c : Int) + 1),
           ((r : Int), (c : Int) - 1), ((r : Int), (c : Int) + 1),
           ((r : Int) + 1, (c : Int) - 1), ((r : Int) + 1, (c : Int)), ((r : Int) + 1, (c : Int) + 1)]
          : List (Int × Int)).filter (fun p => b.liveAt p.1 p.2)).length ∧
      (∀ r1 c1 : Int, ¬ (0 ≤ r1 ∧ r1 < b.rows ∧ 0 ≤ c1 ∧ c1 < b.columns) → b.liveAt r1 c1 = false) ∧
      (∀ r1 c1 : Int, 0 ≤ r1 ∧ r1 < b.rows ∧ 0 ≤ c1 ∧ c1 < b.columns →
        ∃ x, Grid.at? b.matrix r1.toNat c1.toNat = some x ∧ b.liveAt r1 c1 = x.isAlive) := by
  obtain ⟨nb, hN, _, hval⟩ := board.Neighbours_spec h
  have hrl : r < b.matrix.length := by have := h.1; omega
  refine ⟨nb, hN, ?_, ?_, ?_⟩
  · rw [hval r c hrl hc]
    rw [board.liveNeighbours_eq_explicit]
  · intro r1 c1 hout
    simp [board.liveAt, board.inside, hout]
  · intro r1 c1 hin
    obtain ⟨_, x, hx⟩ := board.Cell_inside h r1 c1 hin
    exact ⟨x, hx, by simp [board.liveAt, board.inside, hin, hx]⟩

/-- C3 at the centre of the 5x5 board with the four diagonal cells alive. -/
theorem C3_neighbours_counts_live_adjacent_inside_witness :
    diagonals5.WellFormed ∧ ((2 : Nat) : Int) < diagonals5.rows ∧
    ((2 : Nat) : Int) < diagonals5.columns ∧
    ∃ nb, diagonals5.Neighbours = some (diagonals5, nb) ∧ Grid.at? nb 2 2 = some 4 := by
  refine ⟨by decide, by decide, by decide, ?_⟩
  obtain ⟨nb, hN, hv, _⟩ :=
    C3_neighbours_counts_live_adjacent_inside diagonals5 (by decide) 2 2 (by decide) (by decide)
  refine ⟨nb, hN, ?_⟩
  rw [hv]
  decide

/-- C4: on a well-formed board, for all integers `row` and `column`, `Cell`
returns without panic; its error is nil exactly when `0 <= row < rows` and
`0 <= column < columns`, and then the pointer addresses the existing slot
`matrix[row][column]`; it fails for row = -1, row = rows, column = -1 and
column = columns. -/
theorem C4_cell_succeeds_iff_in_bounds (b : board) (h : b.WellFormed) (row column : Int) :
    (∃ p e, b.Cell row column = some (p, e) ∧
      (e = none ↔ (0 ≤ row ∧ row < b.rows ∧ 0 ≤ column ∧ column < b.columns)) ∧
      (e = none → p = some ⟨row.toNat, column.toNat⟩ ∧
        ∃ x, b.load ⟨row.toNat, column.toNat⟩ = some x ∧
          (b.matrix[row.toNat]?).bind (fun cells => cells[column.toNat]?) = some x)) ∧
    (∃ msg, b.Cell (-1) column = some (none, some msg)) ∧
    (∃ msg, b.Cell b.rows column = some (none, some msg)) ∧
    (∃ msg, b.Cell row (-1) = some (none, some msg)) ∧
    (∃ msg, b.Cell row b.columns = some (none, some msg)) := by
  refine ⟨?_, ?_, ?_, ?_, ?_⟩
  · by_cases hin : b.inside row column
    · obtain ⟨hc, x, hx⟩ := board.Cell_inside h _ _ hin
      refine ⟨_, _, hc, ⟨fun _ => hin, fun _ => rfl⟩, fun _ => ⟨rfl, x, hx, ?_⟩⟩
      obtain ⟨cells, h1, h2⟩ := (Grid.at?_eq_some_iff _ _ _ _).mp hx
      simp [h1, h2]
    · obtain ⟨msg, hc⟩ := board.Cell_outside b hin
      refine ⟨_, _, hc, ⟨fun e => by simp at e, fun hin2 => absurd hin2 hin⟩, fun e => by simp at e⟩
  · exact board.Cell_outside b (fun hin => by have := hin.1; omega)
  · exact board.Cell_outside b (fun hin => by have := hin.2.1; omega)
  · exact board.Cell_outside b (fun hin => by have := hin.2.2.1; omega)
  · exact board.Cell_outside b (fun hin => by have := hin.2.2.2; omega)

/-- C4 at the 5x5 test board and the position (3, 1), which holds a live cell. -/
theorem C4_cell_succeeds_iff_in_bounds_witness :
    diagonals5.WellFormed ∧
    diagonals5.Cell 3 1 = some (some ⟨3, 1⟩, none) ∧
    diagonals5.load ⟨3, 1⟩ = some ⟨true⟩ ∧
    (∃ msg, diagonals5.Cell (-1) 1 = some (none, some msg)) ∧
    (∃ msg, diagonals5.Cell 5 1 = some (none, some msg)) ∧
    (∃ msg, diagonals5.Cell 3 (-1) = some (none, some msg)) ∧
    (∃ msg, diagonals5.Cell 3 5 = some (none, some msg)) := by
  obtain ⟨_, h1, h2, h3, h4⟩ := C4_cell_succeeds_iff_in_bounds diagonals5 (by decide) 3 1
  exact ⟨by decide, by decide, by decide, h1, h2, h3, h4⟩

/-- C5: on a well-formed board `Iterate` returns a nil error: both loops run to
their end without taking the `return err` branch (and without panic), the
lookup `Cell(i, j)` succeeds at every slot of the grid, and every cell inside
the grid holds its updated value afterwards. -/
theorem C5_iterate_returns_nil_and_updates_all (b : board) (h : b.WellFormed) :
    ∃ b1 nb, b.Neighbours = some (b, nb) ∧
      forRet (board.Iterate.row nb) (List.range b.matrix.length) b = Flow.next b1 ∧
      b.Iterate = some (b1, none) ∧
      (∀ i j : Nat, (i : Int) < b.rows → (j : Int) < b.columns →
        b.Cell i j = some (some ⟨i, j⟩, none) ∧ b1.Cell i j = some (some ⟨i, j⟩, none)) ∧
      ∀ r c : Nat, (r : Int) < b.rows → (c : Int) < b.columns →
        ∃ x n, Grid.at? b.matrix r c = some x ∧ Grid.at? nb r c = some n ∧
          Grid.at? b1.matrix r c = some (x.Iterate n) := by
  obtain ⟨nb, hN, _, hval⟩ := board.Neighbours_spec h
  obtain ⟨b1, hL, hr1, hc1, hs1, hv⟩ := @board.Iterate.loops_spec b h nb
    (fun r c hr hc => ⟨_, hval r c hr hc⟩)
  have hwf1 : b1.WellFormed := board.wellFormed_of_shape h hr1 hc1 hs1
  refine ⟨b1, nb, hN, hL, ?_, ?_, ?_⟩
  · unfold board.Iterate
    rw [hN]
    simp only [hL]
  · intro i j hi hj
    have e1 := (board.Cell_inside h (i : Int) (j : Int) ⟨by omega, hi, by omega, hj⟩).1
    have e2 := (board.Cell_inside hwf1 (i : Int) (j : Int)
      ⟨by omega, by rw [hr1]; exact hi, by omega, by rw [hc1]; exact hj⟩).1
    simp only [Int.toNat_ofNat] at e1 e2
    exact ⟨e1, e2⟩
  · intro r c hr hc
    obtain ⟨x, hx⟩ := h.at?_inside hr hc
    have hrl : r < b.matrix.length := by have := h.1; omega
    refine ⟨x, _, hx, hval r c hrl hc, ?_⟩
    rw [hv]
    simp [board.Iterate.target, hx, hval r c hrl hc]

/-- C5 at the 5x5 test board. -/
theorem C5_iterate_returns_nil_and_updates_all_witness :
    diagonals5.WellFormed ∧ ∃ b1, diagonals5.Iterate = some (b1, none) := by
  obtain ⟨b1, _, _, _, hI, _⟩ := C5_iterate_returns_nil_and_updates_all diagonals5 (by decide)
  exact ⟨by decide, b1, hI⟩

theorem board.liveAt_of_neg (b : board) (r c : Int) (hneg : r < 0 ∨ c < 0) :
    b.liveAt r c = false := by
  have : ¬ b.inside r c := fun hin => by
    obtain ⟨h0, _, h2, _⟩ := hin
    omega
  simp [board.liveAt, this]

theorem board.liveNeighbours_le_eight (b : board) (r c : Nat) : b.liveNeighbours r c ≤ 8 := by
  unfold board.liveNeighbours
  exact le_trans (List.length_filter_le _ _) (by simp [neighbourOffsets])

/-- At the corner (0,0) the five adjacent positions with a negative coordinate
are outside the grid, so at most three positions count. -/
theorem board.liveNeighbours_corner_le_three (b : board) : b.liveNeighbours 0 0 ≤ 3 := by
  rw [board.liveNeighbours_eq_explicit]
  have h1 := b.liveAt_of_neg (-1) (-1) (by omega)
  have h2 := b.liveAt_of_neg (-1) 0 (by omega)
  have h3 := b.liveAt_of_neg (-1) 1 (by omega)
  have h4 := b.liveAt_of_neg 0 (-1) (by omega)
  have h5 := b.liveAt_of_neg 1 (-1) (by omega)
  simp only [Nat.cast_zero, zero_sub, zero_add, List.filter_cons, h1, h2, h3, h4, h5,
    Bool.false_eq_true, if_false, List.filter_nil]
  split_ifs <;> simp

/-- C7: on a well-formed board every entry of `Neighbours()` inside the grid is
the unwrapped count of live adjacent positions and is at most 8, so the `uint8`
counter (incremented modulo 256) never wraps; when the board is N x N with
N >= 1 the entry of the corner (0,0) is at most 3, whatever the cell states. -/
theorem C7_neighbour_count_bounds (b : board) (h : b.WellFormed) :
    ∃ nb, b.Neighbours = some (b, nb) ∧
      (∀ r c : Nat, (r : Int) < b.rows → (c : Int) < b.columns →
        ∃ n, Grid.at? nb r c = some n ∧ n = b.liveNeighbours r c ∧ n ≤ 8 ∧ n < 256) ∧
      (b.rows = b.columns → 1 ≤ b.rows → ∃ n, Grid.at? nb 0 0 = some n ∧ n ≤ 3) := by
  obtain ⟨nb, hN, _, hval⟩ := board.Neighbours_spec h
  refine ⟨nb, hN, ?_, ?_⟩
  · intro r c hr hc
    have hrl : r < b.matrix.length := by have := h.1; omega
    have h8 := b.liveNeighbours_le_eight r c
    exact ⟨_, hval r c hrl hc, rfl, h8, by omega⟩
  · intro hsq hN1
    have hrl : 0 < b.matrix.length := by have := h.1; omega
    exact ⟨_, hval 0 0 hrl (by omega), b.liveNeighbours_corner_le_three⟩

/-- C7 at the 2x2 board with every cell alive: the corner count is at most 3. -/
theorem C7_neighbour_count_bounds_witness :
    (mkBoard 2 2 [[true, true], [true, true]]).WellFormed ∧
    ∃ nb, (mkBoard 2 2 [[true, true], [true, true]]).Neighbours =
        some (mkBoard 2 2 [[true, true], [true, true]], nb) ∧
      ∃ n, Grid.at? nb 0 0 = some n ∧ n ≤ 3 := by
  obtain ⟨nb, hN, _, hcorner⟩ :=
    C7_neighbour_count_bounds (mkBoard 2 2 [[true, true], [true, true]]) (by decide)
  exact ⟨by decide, nb, hN, hcorner (by decide) (by decide)⟩

/-- C10: a well-formed 1x1 board has count 0 at its only cell (all eight
adjacent positions are outside the grid) and its cell is dead after `Iterate`,
whether it was alive or dead before. -/
theorem C10_one_by_one_board_dies (b : board) (h : b.WellFormed) (hr : b.rows = 1)
    (hc : b.columns = 1) :
    b.Neighbours = some (b, [[0]]) ∧
      b.Iterate = some ({ rows := 1, columns := 1, matrix := [[⟨false⟩]] }, none) := by
  obtain ⟨rows, columns, matrix⟩ := b
  simp only at hr hc
  subst hr; subst hc
  obtain ⟨h1, h2⟩ := h
  simp only at h1 h2
  have hl : matrix.length = 1 := by omega
  obtain ⟨row, rfl⟩ := List.length_eq_one.mp hl
  have hrl : row.length = 1 := by
    have := h2 row (by simp); omega
  obtain ⟨x, rfl⟩ := List.length_eq_one.mp hrl
  obtain ⟨a⟩ := x
  cases a <;> decide

/-- C10 at the 1x1 board whose only cell is alive: one `Iterate` kills it. -/
theorem C10_one_by_one_board_dies_witness :
    (mkBoard 1 1 [[true]]).WellFormed ∧ (mkBoard 1 1 [[true]]).rows = 1 ∧
    (mkBoard 1 1 [[true]]).columns = 1 ∧
    (mkBoard 1 1 [[true]]).Neighbours = some (mkBoard 1 1 [[true]], [[0]]) ∧
    (mkBoard 1 1 [[true]]).Iterate = some (mkBoard 1 1 [[false]], none) :=
  ⟨by decide, by decide, by decide,
    C10_one_by_one_board_dies (mkBoard 1 1 [[true]]) (by decide) (by decide) (by decide)⟩

/-! ## `board.String` -/

theorem concat_append (xs ys : List String) : concat (xs ++ ys) = concat xs ++ concat ys := by
  induction xs with
  | nil => simp [concat]
  | cons x xs ih => simp [concat, ih, String.append_assoc]

theorem glyph_length (c : Cell) : (glyph c).length = 3 := by
  unfold glyph; split <;> rfl

theorem glyph_no_newline (c : Cell) : '\n' ∉ (glyph c).data := by
  unfold glyph; split <;> decide

theorem renderLine_length (row : List Cell) : (renderLine row).length = 3 * row.length := by
  unfold renderLine
  induction row with
  | nil => rfl
  | cons c row ih =>
    simp only [List.map_cons, concat, String.length_append, glyph_length, ih, List.length_cons]
    omega

theorem renderLine_no_newline (row : List Cell) : '\n' ∉ (renderLine row).data := by
  unfold renderLine
  induction row with
  | nil => simp [concat]
  | cons c row ih =>
    simp only [List.map_cons, concat, String.data_append, List.mem_append, not_or]
    exact ⟨glyph_no_newline c, ih⟩

theorem render_length (m : List (List Cell)) (C : Nat) (hC : ∀ row ∈ m, row.length = C) :
    (render m).length = m.length * (3 * C + 1) := by
  unfold render
  induction m with
  | nil => simp [concat]
  | cons row m ih =>
    have h1 := hC row (by simp)
    have h2 := ih (fun r hr => hC r (by simp [hr]))
    simp only [List.map_cons, concat, String.length_append, renderLine_length, h1, h2,
      List.length_cons]
    have : ("\n" : String).length = 1 := rfl
    rw [this]
    ring

/-- The `j` loop of `String` appends the text of the row to the builder. -/
theorem boardString_cells_spec (b : board) (i : Nat) (cells : List Cell)
    (hcells : b.matrix[i]? = some cells) (sb : String) :
    forEach (board.String.cell b i) (List.range cells.length) sb = some (sb ++ renderLine cells) := by
  obtain ⟨s1, h1, h2⟩ := forEach_range_inv (board.String.cell b i)
    (fun j s => s = sb ++ concat ((cells.take j).map glyph))
    cells.length sb (by simp [concat])
    (by
      intro j s hj hs
      have hx : Grid.at? b.matrix i j = some cells[j] := by
        rw [Grid.at?_of_row hcells]; exact List.getElem?_eq_getElem hj
      refine ⟨s ++ glyph cells[j], ?_, ?_⟩
      · unfold board.String.cell glyph
        rw [hx]
        simp only
        split <;> rfl
      · show s ++ glyph cells[j] = sb ++ concat ((cells.take (j + 1)).map glyph)
        rw [hs, List.take_succ, List.getElem?_eq_getElem hj]
        simp only [Option.toList, List.map_append, List.map_cons, List.map_nil, concat_append,
          concat, String.append_assoc, String.append_empty])
  rw [h1, h2, List.take_length]
  rfl

/-- The method `String` never panics, leaves the board as it was and returns the text of
the grid. -/
theorem boardString_spec (b : board) : b.String = some (b, render b.matrix) := by
  obtain ⟨s1, h1, h2⟩ := forEach_range_inv (board.String.row b)
    (fun k s => s = concat ((b.matrix.take k).map (fun row => renderLine row ++ "\n")))
    b.matrix.length "" (by simp [concat])
    (by
      intro i s hi hs
      have hcells : b.matrix[i]? = some b.matrix[i] := List.getElem?_eq_getElem hi
      refine ⟨s ++ renderLine b.matrix[i] ++ "\n", ?_, ?_⟩
      · unfold board.String.row
        rw [hcells]
        simp only [boardString_cells_spec b i _ hcells]
      · show s ++ renderLine b.matrix[i] ++ "\n" =
          concat ((b.matrix.take (i + 1)).map (fun row => renderLine row ++ "\n"))
        rw [hs, List.take_succ, hcells]
        simp only [Option.toList, List.map_append, List.map_cons, List.map_nil, concat_append,
          concat, String.append_assoc, String.append_empty])
  unfold board.String
  rw [h1, h2, List.take_length]
  rfl

/-- C6: on a well-formed board `String()` returns, for each row in order from
row 0, the row's cells rendered left to right as " * " (live) or "   " (dead),
followed by one newline: there are `rows` such lines, each line is `3*columns`
characters long and holds no newline, and the total length is
`rows*(3*columns+1)`. -/
theorem C6_string_renders_rows_of_glyphs (b : board) (h : b.WellFormed) :
    ∃ s, b.String = some (b, s) ∧
      s = concat (b.matrix.map (fun row =>
        concat (row.map (fun c => if c.isAlive then " * " else "   ")) ++ "\n")) ∧
      ((b.matrix.map renderLine).length : Int) = b.rows ∧
      (∀ line ∈ b.matrix.map renderLine,
        ((line.length : Int) = 3 * b.columns ∧ '\n' ∉ line.data)) ∧
      (s.length : Int) = b.rows * (3 * b.columns + 1) := by
  refine ⟨render b.matrix, boardString_spec b, rfl, by simp [h.1], ?_, ?_⟩
  · intro line hline
    obtain ⟨row, hrow, rfl⟩ := List.mem_map.mp hline
    have := h.2 row hrow
    refine ⟨?_, renderLine_no_newline row⟩
    rw [renderLine_length]; push_cast; rw [this]
  · by_cases hm : b.matrix = []
    · simp [render, concat, hm, h.1]
    · obtain ⟨row0, hrow0⟩ := List.exists_mem_of_ne_nil _ hm
      have hc0 := h.2 row0 hrow0
      have hlen := render_length b.matrix b.columns.toNat (fun row hrow => by
        have := h.2 row hrow; omega)
      rw [hlen, h.1]
      push_cast
      rw [Int.toNat_of_nonneg (by omega)]

/-- C6 at a 1x2 board with a live and a dead cell. -/
theorem C6_string_renders_rows_of_glyphs_witness :
    (mkBoard 1 2 [[true, false]]).WellFormed ∧
    (mkBoard 1 2 [[true, false]]).String = some (mkBoard 1 2 [[true, false]], " *    \n") := by
  obtain ⟨s, hs, he, _⟩ := C6_string_renders_rows_of_glyphs (mkBoard 1 2 [[true, false]]) (by decide)
  refine ⟨by decide, ?_⟩
  rw [hs, he]
  decide

/-! ## Frame and shape -/

/-- On well-formed boards the result of `Neighbours` is determined by the matrix. -/
theorem board.Neighbours_congr {b b2 : board} (h : b.WellFormed) (h2 : b2.WellFormed)
    (hm : b2.matrix = b.matrix) {nb : List (List Nat)} (hN : b.Neighbours = some (b, nb)) :
    b2.Neighbours = some (b2, nb) := by
  by_cases he : b.matrix = []
  · obtain ⟨nb1, hN1, hs1, _⟩ := board.Neighbours_spec h
    obtain ⟨nb2, hN2, hs2, _⟩ := board.Neighbours_spec h2
    rw [hN] at hN1
    have e1 : nb1 = nb := by simpa using hN1.symm
    have l1 : nb1 = [] := List.length_eq_zero.mp (by rw [hs1.1, he]; rfl)
    have l2 : nb2 = [] := List.length_eq_zero.mp (by rw [hs2.1, hm, he]; rfl)
    rw [hN2, l2, ← e1, l1]
  · obtain ⟨row0, hrow0⟩ := List.exists_mem_of_ne_nil _ he
    have hc : b2.columns = b.columns := by
      rw [← h.2 row0 hrow0, ← h2.2 row0 (by rw [hm]; exact hrow0)]
    have hr : b2.rows = b.rows := by rw [h.1, h2.1, hm]
    have : b2 = b := by
      cases b; cases b2; simp only at hm hc hr; subst hm; subst hc; subst hr; rfl
    rw [this]; exact hN

/-- C8: `Neighbours()` and `String()` are read-only on a well-formed board: the
board after the call has the same `rows`, `columns` and matrix as before, a
second call in a row returns the same result, and the result is the same on
every well-formed board that holds the same grid. -/
theorem C8_neighbours_and_string_are_read_only (b : board) (h : b.WellFormed) :
    ∃ nb s bN bS, b.Neighbours = some (bN, nb) ∧ b.String = some (bS, s) ∧
      (bN.rows = b.rows ∧ bN.columns = b.columns ∧ bN.matrix = b.matrix) ∧
      (bS.rows = b.rows ∧ bS.columns = b.columns ∧ bS.matrix = b.matrix) ∧
      bN.Neighbours = some (bN, nb) ∧ bS.String = some (bS, s) ∧
      bN.String = some (bN, s) ∧ bS.Neighbours = some (bS, nb) ∧
      ∀ b2 : board, b2.WellFormed → b2.matrix = b.matrix →
        b2.Neighbours = some (b2, nb) ∧ b2.String = some (b2, s) := by
  obtain ⟨nb, hN, _, _⟩ := board.Neighbours_spec h
  have hS := boardString_spec b
  refine ⟨nb, render b.matrix, b, b, hN, hS, ⟨rfl, rfl, rfl⟩, ⟨rfl, rfl, rfl⟩, hN, hS, hS, hN, ?_⟩
  intro b2 h2 hm
  refine ⟨board.Neighbours_congr h h2 hm hN, ?_⟩
  rw [boardString_spec b2, hm]

/-- C8 at the 3x3 board whose top row is alive: both calls return the board
with its matrix untouched, the counts and the text. -/
theorem C8_neighbours_and_string_are_read_only_witness :
    topRow3.WellFormed ∧
    ∃ nb s bN bS, topRow3.Neighbours = some (bN, nb) ∧ topRow3.String = some (bS, s) ∧
      bN.matrix = topRow3.matrix ∧ bS.matrix = topRow3.matrix ∧
      nb = [[1, 2, 1], [2, 3, 2], [0, 0, 0]] ∧
      s = " *  *  * \n         \n         \n" := by
  obtain ⟨nb, s, bN, bS, hN, hS, hfN, hfS, _⟩ :=
    C8_neighbours_and_string_are_read_only topRow3 (by decide)
  have eN : topRow3.Neighbours = some (topRow3, [[1, 2, 1], [2, 3, 2], [0, 0, 0]]) := by decide
  have eS : topRow3.String = some (topRow3, " *  *  * \n         \n         \n") := by decide
  refine ⟨by decide, nb, s, bN, bS, hN, hS, hfN.2.2, hfS.2.2, ?_, ?_⟩
  · rw [hN] at eN
    simp only [Option.some.injEq, Prod.mk.injEq] at eN
    exact eN.2
  · rw [hS] at eS
    simp only [Option.some.injEq, Prod.mk.injEq] at eS
    exact eS.2

/-! ## `Initialize` and `NewBoard` -/

/-- The method `Initialize` on a well-formed board never panics and keeps fields and shape,
whatever the random source draws. -/
theorem board.Initialize_shape {b : board} (h : b.WellFormed) (g : Rand) :
    ∃ b1 g1, b.Initialize g = some (b1, g1) ∧
      b1.rows = b.rows ∧ b1.columns = b.columns ∧ b.ShapeOf b1.matrix := by
  obtain ⟨s1, h1, hr1, hc1, hs1⟩ := forEach_range_inv board.Initialize.row
    (fun _ (s : board × Rand) =>
      s.1.rows = b.rows ∧ s.1.columns = b.columns ∧ b.ShapeOf s.1.matrix)
    b.matrix.length (b, g) ⟨rfl, rfl, board.shapeOf_matrix h⟩
    (by
      intro i s hi ⟨hri, hci, hsi⟩
      have hib : i < s.1.matrix.length := by rw [hsi.1]; exact hi
      have hcells : s.1.matrix[i]? = some s.1.matrix[i] := List.getElem?_eq_getElem hib
      have hcl := hsi.2 i _ hcells
      unfold board.Initialize.row
      rw [hcells]
      exact forEach_range_inv (board.Initialize.cell i)
        (fun _ (t : board × Rand) =>
          t.1.rows = b.rows ∧ t.1.columns = b.columns ∧ b.ShapeOf t.1.matrix)
        (s.1.matrix[i]).length s ⟨hri, hci, hsi⟩
        (by
          intro j t hj ⟨hrj, hcj, hsj⟩
          have hjc : (j : Int) < b.columns := by omega
          have hwf : t.1.WellFormed := board.wellFormed_of_shape h hrj hcj hsj
          obtain ⟨x, hx⟩ := @board.WellFormed.at?_inside t.1 hwf i j
            (by rw [hrj, h.1]; omega) (by rw [hcj]; exact hjc)
          obtain ⟨m, hst, hsm, _⟩ := hsj.store hi hjc
            ({ x with isAlive := decide (t.2.draws t.2.pos % (100 : Int).toNat < 20) } : GameOfLife.Cell)
          refine ⟨({ t.1 with matrix := m }, { t.2 with pos := t.2.pos + 1 }), ?_, hrj, hcj, hsm⟩
          unfold board.Initialize.cell
          rw [hx]
          simp only [Rand.Intn]
          rw [if_neg (by decide)]
          simp only [hst]))
  exact ⟨s1.1, s1.2, by unfold board.Initialize; rw [h1], hr1, hc1, hs1⟩

/-- The allocation part of `NewBoard`, for non-negative dimensions: a
well-formed board of dead cells. -/
theorem NewBoard_alloc (rows columns : Int) (hr : 0 ≤ rows) (hc : 0 ≤ columns) :
    ∃ b : board,
      forEach (NewBoard.row columns) (List.range rows.toNat)
        { rows := rows, columns := columns, matrix := List.replicate rows.toNat [] } = some b ∧
      b.rows = rows ∧ b.columns = columns ∧ b.WellFormed := by
  obtain ⟨b, h1, hr1, hc1, hl1, hsh⟩ := forEach_range_inv (NewBoard.row columns)
    (fun k b => b.rows = rows ∧ b.columns = columns ∧ b.matrix.length = rows.toNat ∧
      ∀ (r : Nat) (row : List Cell), r < k → b.matrix[r]? = some row →
        (row.length : Int) = columns)
    rows.toNat { rows := rows, columns := columns, matrix := List.replicate rows.toNat [] }
    ⟨rfl, rfl, by simp, by intro r row hr; omega⟩
    (by
      intro k b hk ⟨hrk, hck, hlk, hshk⟩
      refine ⟨{ b with matrix := b.matrix.set k (List.replicate columns.toNat ⟨false⟩) }, ?_,
        hrk, hck, by simpa using hlk, ?_⟩
      · simp [NewBoard.row, make, Grid.storeRow, hlk, hk, not_lt.mpr hc]
      · intro r row hr hrow
        simp only at hrow
        rw [List.getElem?_set] at hrow
        by_cases e : k = r
        · subst e
          simp [hlk, hk] at hrow
          rw [← hrow]; simp; omega
        · simp [e] at hrow
          exact hshk r row (by omega) hrow)
  refine ⟨b, h1, hr1, hc1, ⟨by rw [hr1, hl1]; omega, ?_⟩⟩
  intro row hrow
  obtain ⟨n, hn⟩ := List.mem_iff_getElem?.mp hrow
  have : n < b.matrix.length := by
    rcases List.getElem?_eq_some_iff.mp hn with ⟨hlt, _⟩; exact hlt
  rw [hc1]
  exact hsh n row (by omega) hn

/-- The constructor `NewBoard` with non-negative dimensions never panics and yields a
well-formed board with the requested fields. -/
theorem NewBoard_shape (rows columns : Int) (g : Rand) (hr : 0 ≤ rows) (hc : 0 ≤ columns) :
    ∃ b g1, NewBoard rows columns g = some (b, g1) ∧
      b.rows = rows ∧ b.columns = columns ∧ b.WellFormed := by
  obtain ⟨b0, h0, hr0, hc0, hwf0⟩ := NewBoard_alloc rows columns hr hc
  obtain ⟨b1, g1, h1, hr1, hc1, hs1⟩ := board.Initialize_shape hwf0 g
  refine ⟨b1, g1, ?_, by rw [hr1, hr0], by rw [hc1, hc0],
    board.wellFormed_of_shape hwf0 hr1 hc1 hs1⟩
  have hm : make ([] : List Cell) rows = some (List.replicate rows.toNat []) := by
    simp [make, not_lt.mpr hr]
  unfold NewBoard
  rw [hm]
  simp only [List.length_replicate, h0]
  exact h1

/-- C9: board shape is an invariant.  For all `rows >= 0` and `columns >= 0`,
`NewBoard(rows, columns)` yields a board whose fields are the arguments and
whose matrix has `rows` rows of `columns` cells each; on a well-formed board
`Initialize` and `Iterate` keep the fields and that shape; and `Neighbours()`
returns a grid of `rows` rows of `columns` counts each. -/
theorem C9_board_shape_is_invariant (b : board) (h : b.WellFormed) (g : Rand) :
    (∀ rows columns : Int, 0 ≤ rows → 0 ≤ columns →
      ∃ b0 g0, NewBoard rows columns g = some (b0, g0) ∧
        b0.rows = rows ∧ b0.columns = columns ∧ (b0.matrix.length : Int) = rows ∧
        ∀ row ∈ b0.matrix, (row.length : Int) = columns) ∧
    (∃ b1 g1, b.Initialize g = some (b1, g1) ∧
      b1.rows = b.rows ∧ b1.columns = b.columns ∧ (b1.matrix.length : Int) = b.rows ∧
      ∀ row ∈ b1.matrix, (row.length : Int) = b.columns) ∧
    (∃ b2 err, b.Iterate = some (b2, err) ∧
      b2.rows = b.rows ∧ b2.columns = b.columns ∧ (b2.matrix.length : Int) = b.rows ∧
      ∀ row ∈ b2.matrix, (row.length : Int) = b.columns) ∧
    (∃ bN nb, b.Neighbours = some (bN, nb) ∧ (nb.length : Int) = b.rows ∧
      ∀ row ∈ nb, (row.length : Int) = b.columns) := by
  refine ⟨?_, ?_, ?_, ?_⟩
  · intro rows columns hr hc
    obtain ⟨b0, g0, h0, hr0, hc0, hwf0⟩ := NewBoard_shape rows columns g hr hc
    exact ⟨b0, g0, h0, hr0, hc0, by rw [← hwf0.1, hr0], by rw [← hc0]; exact hwf0.2⟩
  · obtain ⟨b1, g1, h1, hr1, hc1, hs1⟩ := board.Initialize_shape h g
    have hwf1 := board.wellFormed_of_shape h hr1 hc1 hs1
    exact ⟨b1, g1, h1, hr1, hc1, by rw [← hwf1.1, hr1], by rw [← hc1]; exact hwf1.2⟩
  · obtain ⟨b2, h2, hr2, hc2, hwf2, _, _⟩ := board.Iterate_spec h
    exact ⟨b2, none, h2, hr2, hc2, by rw [← hwf2.1, hr2], by rw [← hc2]; exact hwf2.2⟩
  · obtain ⟨nb, hN, hs, _⟩ := board.Neighbours_spec h
    refine ⟨b, nb, hN, by rw [hs.1, h.1], ?_⟩
    intro row hrow
    obtain ⟨n, hn⟩ := List.mem_iff_getElem?.mp hrow
    exact hs.2 n row hn

/-- C9 at the 5x5 test board, and `NewBoard(2, 3)` on the source of draws
0, 7, 14, ... -/
theorem C9_board_shape_is_invariant_witness :
    diagonals5.WellFormed ∧
    (∃ b0 g0, NewBoard 2 3 ⟨fun n => 7 * n, 0⟩ = some (b0, g0) ∧
      b0.rows = 2 ∧ b0.columns = 3 ∧ (b0.matrix.length : Int) = 2 ∧
      ∀ row ∈ b0.matrix, (row.length : Int) = 3) ∧
    (∃ b2 err, diagonals5.Iterate = some (b2, err) ∧
      b2.rows = 5 ∧ b2.columns = 5 ∧ (b2.matrix.length : Int) = 5 ∧
      ∀ row ∈ b2.matrix, (row.length : Int) = 5) := by
  obtain ⟨hNew, _, hIter, _⟩ :=
    C9_board_shape_is_invariant diagonals5 (by decide) ⟨fun n => 7 * n, 0⟩
  exact ⟨by decide, hNew 2 3 (by decide) (by decide), hIter⟩

/-! ## The live centre with four live diagonal neighbours -/

/-- C11 (as amended): on the 5x5 board whose centre (2,2) and four diagonal
neighbours are alive and whose other cells are dead, the count of the centre is
4 and, the centre being alive with 4 > 3, it is dead after one `Iterate`. -/
theorem C11_live_centre_with_four_neighbours_dies :
    centre5.WellFormed ∧
    Grid.at? centre5.matrix 2 2 = some ⟨true⟩ ∧
    (∃ nb, centre5.Neighbours = some (centre5, nb) ∧ Grid.at? nb 2 2 = some 4) ∧
    (∃ b1, centre5.Iterate = some (b1, none) ∧ Grid.at? b1.matrix 2 2 = some ⟨false⟩) := by
  refine ⟨by decide, by decide, ?_, ?_⟩
  · obtain ⟨nb, hN, _⟩ := @board.Neighbours_spec centre5 (by decide)
    refine ⟨nb, hN, ?_⟩
    have e : centre5.Neighbours.bind (fun p => Grid.at? p.2 2 2) = some 4 := by decide
    rw [hN] at e; exact e
  · obtain ⟨b1, hI, _⟩ := @board.Iterate_spec centre5 (by decide)
    refine ⟨b1, hI, ?_⟩
    have e : centre5.Iterate.bind (fun p => Grid.at? p.1.matrix 2 2) = some ⟨false⟩ := by decide
    rw [hI] at e; exact e

/-- C11 as stated fails: after one `Iterate` of that board the centre cell is
not alive. -/
theorem C11_live_centre_is_not_alive_after_iterate :
    ¬ (∃ b1 err, centre5.Iterate = some (b1, err) ∧ Grid.at? b1.matrix 2 2 = some ⟨true⟩) := by
  rintro ⟨b1, err, hI, hc⟩
  have e : centre5.Iterate.bind (fun p => Grid.at? p.1.matrix 2 2) = some ⟨false⟩ := by decide
  rw [hI] at e
  simp only [Option.some_bind] at e
  rw [hc] at e
  exact absurd e (by decide)

/-! ## Errors of `board.Cell` -/

/-- C14: on a well-formed board `Cell(row, column)` reports four distinct
failures, the row being checked before the column: `row < 0` gives "Row must
not be negative"; `row > rows-1` gives "Row exceeds dimension"; with the row in
range, `column < 0` gives "Column must not be negative" and
`column > columns-1` gives "Column exceeds dimension".  Whenever the row is out
of range the error is a row error, whatever the column is (so also when both
coordinates are out of range), and whenever an error is returned no cell is
returned.  The subtractions `rows-1` and, once the row is in range,
`columns-1` are at least -1, so they do not wrap around in `int`. -/
theorem C14_cell_reports_four_errors_row_first (b : board) (h : b.WellFormed)
    (row column : Int) :
    (row < 0 → b.Cell row column = some (none, some "Row must not be negative")) ∧
    (0 ≤ row → row > b.rows - 1 →
      b.Cell row column = some (none, some "Row exceeds dimension")) ∧
    (0 ≤ row → row ≤ b.rows - 1 → column < 0 →
      b.Cell row column = some (none, some "Column must not be negative")) ∧
    (0 ≤ row → row ≤ b.rows - 1 → 0 ≤ column → column > b.columns - 1 →
      b.Cell row column = some (none, some "Column exceeds dimension")) ∧
    ((row < 0 ∨ row > b.rows - 1) →
      b.Cell row column = some (none, some "Row must not be negative") ∨
      b.Cell row column = some (none, some "Row exceeds dimension")) ∧
    ((row < 0 ∨ row > b.rows - 1) → (column < 0 ∨ column > b.columns - 1) →
      b.Cell row column = some (none, some "Row must not be negative") ∨
      b.Cell row column = some (none, some "Row exceeds dimension")) ∧
    (∀ p msg, b.Cell row column = some (p, some msg) → p = none) ∧
    ("Row must not be negative" ≠ "Row exceeds dimension" ∧
      "Row must not be negative" ≠ "Column must not be negative" ∧
      "Row must not be negative" ≠ "Column exceeds dimension" ∧
      "Row exceeds dimension" ≠ "Column must not be negative" ∧
      "Row exceeds dimension" ≠ "Column exceeds dimension" ∧
      "Column must not be negative" ≠ "Column exceeds dimension") ∧
    (-1 ≤ b.rows - 1 ∧ (0 ≤ row → row ≤ b.rows - 1 → -1 ≤ b.columns - 1)) := by
  have e1 : row < 0 → b.Cell row column = some (none, some "Row must not be negative") := by
    intro h; unfold board.Cell; rw [if_pos h]
  have e2 : 0 ≤ row → row > b.rows - 1 →
      b.Cell row column = some (none, some "Row exceeds dimension") := by
    intro h0 h; unfold board.Cell; rw [if_neg (by omega), if_pos h]
  have e3 : 0 ≤ row → row ≤ b.rows - 1 → column < 0 →
      b.Cell row column = some (none, some "Column must not be negative") := by
    intro h0 h1 h; unfold board.Cell; rw [if_neg (by omega), if_neg (by omega), if_pos h]
  have e4 : 0 ≤ row → row ≤ b.rows - 1 → 0 ≤ column → column > b.columns - 1 →
      b.Cell row column = some (none, some "Column exceeds dimension") := by
    intro h0 h1 h2 h; unfold board.Cell
    rw [if_neg (by omega), if_neg (by omega), if_neg (by omega), if_pos h]
  have e5 : (row < 0 ∨ row > b.rows - 1) →
      b.Cell row column = some (none, some "Row must not be negative") ∨
      b.Cell row column = some (none, some "Row exceeds dimension") := by
    intro hr
    by_cases hneg : row < 0
    · exact Or.inl (e1 hneg)
    · exact Or.inr (e2 (by omega) (by omega))
  refine ⟨e1, e2, e3, e4, e5, fun hr _ => e5 hr, ?_, by decide, ?_⟩
  · intro p msg hp
    by_cases hin : b.inside row column
    · obtain ⟨hc, _⟩ := board.Cell_inside h row column hin
      rw [hc] at hp
      simp at hp
    · obtain ⟨m, hm⟩ := board.Cell_outside b hin
      rw [hm] at hp
      simp only [Option.some.injEq, Prod.mk.injEq] at hp
      exact hp.1.symm
  · have hl := h.1
    refine ⟨by omega, ?_⟩
    intro h0 h1
    have hlen : row.toNat < b.matrix.length := by omega
    have hrow : b.matrix[row.toNat]? = some b.matrix[row.toNat] :=
      List.getElem?_eq_getElem hlen
    have := h.row_length hrow
    omega

/-- C14 on the 5x5 test board: one position for each of the four errors, and a
position with both coordinates out of range. -/
theorem C14_cell_reports_four_errors_row_first_witness :
    diagonals5.WellFormed ∧
    diagonals5.Cell (-1) 2 = some (none, some "Row must not be negative") ∧
    diagonals5.Cell 5 2 = some (none, some "Row exceeds dimension") ∧
    diagonals5.Cell 2 (-1) = some (none, some "Column must not be negative") ∧
    diagonals5.Cell 2 5 = some (none, some "Column exceeds dimension") ∧
    diagonals5.Cell 7 (-3) = some (none, some "Row exceeds dimension") :=
  ⟨by decide,
   (C14_cell_reports_four_errors_row_first diagonals5 (by decide) (-1) 2).1 (by decide),
   (C14_cell_reports_four_errors_row_first diagonals5 (by decide) 5 2).2.1 (by decide)
     (by decide),
   (C14_cell_reports_four_errors_row_first diagonals5 (by decide) 2 (-1)).2.2.1 (by decide)
     (by decide) (by decide),
   (C14_cell_reports_four_errors_row_first diagonals5 (by decide) 2 5).2.2.2.1 (by decide)
     (by decide) (by decide) (by decide),
   (C14_cell_reports_four_errors_row_first diagonals5 (by decide) 7 (-3)).2.1 (by decide)
     (by decide)⟩

/-! ## Determinism -/

/-- Any number of successive `Iterate` calls on a well-formed board returns,
with the fields kept and a well-formed board. -/
theorem board.IterateN_total {b : board} (h : b.WellFormed) (n : Nat) :
    ∃ bn, b.IterateN n = some bn ∧ bn.rows = b.rows ∧ bn.columns = b.columns ∧
      bn.WellFormed := by
  induction n generalizing b with
  | zero => exact ⟨b, rfl, rfl, rfl, h⟩
  | succ n ih =>
    obtain ⟨b1, hI, hr1, hc1, hwf1, _, _⟩ := board.Iterate_spec h
    obtain ⟨bn, hn, hrn, hcn, hwfn⟩ := ih hwf1
    refine ⟨bn, ?_, by rw [hrn, hr1], by rw [hcn, hc1], hwfn⟩
    simp only [board.IterateN, hI]
    exact hn

/-- Well-formed boards with the same fields and the same cell in every slot
are the same board. -/
theorem board.eq_of_same_cells {b1 b2 : board} (h1 : b1.WellFormed) (h2 : b2.WellFormed)
    (hr : b1.rows = b2.rows) (hc : b1.columns = b2.columns)
    (hcells : ∀ r c : Nat, Grid.at? b1.matrix r c = Grid.at? b2.matrix r c) : b1 = b2 := by
  have hl : b1.matrix.length = b2.matrix.length := by
    have e1 := h1.1
    have e2 := h2.1
    omega
  have hm : b1.matrix = b2.matrix := Grid.ext hl hcells
  cases b1; cases b2
  simp only at hr hc hm
  subst hr; subst hc; subst hm
  rfl

/-- C13: the transition is deterministic.  `Iterate` takes the board and
nothing else (no random source, no hidden state); for every `n`, two
well-formed boards with identical dimensions and identical cell states both
complete `n` successive `Iterate` calls and have identical dimensions and cell
states afterwards. -/
theorem C13_iterate_is_deterministic (b1 b2 : board) (h1 : b1.WellFormed)
    (h2 : b2.WellFormed) (hr : b1.rows = b2.rows) (hc : b1.columns = b2.columns)
    (hcells : ∀ r c : Nat, Grid.at? b1.matrix r c = Grid.at? b2.matrix r c) (n : Nat) :
    ∃ c1 c2, b1.IterateN n = some c1 ∧ b2.IterateN n = some c2 ∧
      c1.rows = c2.rows ∧ c1.columns = c2.columns ∧ c1.matrix = c2.matrix ∧
      (∀ r c : Nat, Grid.at? c1.matrix r c = Grid.at? c2.matrix r c) ∧
      b1.Iterate = b2.Iterate := by
  have e : b1 = b2 := board.eq_of_same_cells h1 h2 hr hc hcells
  subst e
  obtain ⟨bn, hn, _⟩ := board.IterateN_total h1 n
  exact ⟨bn, bn, hn, hn, rfl, rfl, rfl, fun _ _ => rfl, rfl⟩

/-- C13 at two copies of the 3x3 board whose top row is alive, three steps. -/
theorem C13_iterate_is_deterministic_witness :
    topRow3.WellFormed ∧ (mkBoard 3 3 [[true, true, true], [false, false, false],
      [false, false, false]]).WellFormed ∧
    ∃ c1 c2, topRow3.IterateN 3 = some c1 ∧
      (mkBoard 3 3 [[true, true, true], [false, false, false],
        [false, false, false]]).IterateN 3 = some c2 ∧
      c1.rows = c2.rows ∧ c1.columns = c2.columns ∧ c1.matrix = c2.matrix := by
  obtain ⟨c1, c2, e1, e2, e3, e4, e5, _⟩ :=
    C13_iterate_is_deterministic topRow3
      (mkBoard 3 3 [[true, true, true], [false, false, false], [false, false, false]])
      (by decide) (by decide) (by decide) (by decide) (fun _ _ => rfl) 3
  exact ⟨by decide, by decide, c1, c2, e1, e2, e3, e4, e5⟩

/-! ## Random construction -/

/-- The method `Initialize` on a well-formed board: it never panics, keeps
fields and shape, consumes one draw per cell in row-major order, and leaves in
slot `(r, c)` the cell that is alive exactly when the draw number
`r * columns + c` is below 20. -/
theorem board.Initialize_spec {b : board} (h : b.WellFormed) (g : Rand) :
    ∃ b1 g1, b.Initialize g = some (b1, g1) ∧
      b1.rows = b.rows ∧ b1.columns = b.columns ∧ b.ShapeOf b1.matrix ∧
      g1.draws = g.draws ∧ g1.pos = g.pos + b.matrix.length * b.columns.toNat ∧
      ∀ r c : Nat, r < b.matrix.length → (c : Int) < b.columns →
        Grid.at? b1.matrix r c =
          some ⟨decide (g.nth (r * b.columns.toNat + c) < 20)⟩ := by
  obtain ⟨s1, h1, hr1, hc1, hs1, hd1, hp1, hv1⟩ := forEach_range_inv board.Initialize.row
    (fun k (s : board × Rand) =>
      s.1.rows = b.rows ∧ s.1.columns = b.columns ∧ b.ShapeOf s.1.matrix ∧
      s.2.draws = g.draws ∧ s.2.pos = g.pos + k * b.columns.toNat ∧
      ∀ r c : Nat, r < k → (c : Int) < b.columns →
        Grid.at? s.1.matrix r c = some ⟨decide (g.nth (r * b.columns.toNat + c) < 20)⟩)
    b.matrix.length (b, g)
    ⟨rfl, rfl, board.shapeOf_matrix h, rfl, by simp, by intro r c hr; omega⟩
    (by
      intro i s hi ⟨hri, hci, hsi, hdi, hpi, hvi⟩
      have hib : i < s.1.matrix.length := by rw [hsi.1]; exact hi
      have hcells : s.1.matrix[i]? = some s.1.matrix[i] := List.getElem?_eq_getElem hib
      have hcl := hsi.2 i _ hcells
      unfold board.Initialize.row
      rw [hcells]
      obtain ⟨t1, ht1, hrt, hct, hst, hdt, hpt, hvt, hwt⟩ :=
        forEach_range_inv (board.Initialize.cell i)
        (fun j (t : board × Rand) =>
          t.1.rows = b.rows ∧ t.1.columns = b.columns ∧ b.ShapeOf t.1.matrix ∧
          t.2.draws = g.draws ∧ t.2.pos = g.pos + i * b.columns.toNat + j ∧
          (∀ r c : Nat, r < i → (c : Int) < b.columns →
            Grid.at? t.1.matrix r c =
              some ⟨decide (g.nth (r * b.columns.toNat + c) < 20)⟩) ∧
          (∀ c : Nat, c < j →
            Grid.at? t.1.matrix i c =
              some ⟨decide (g.nth (i * b.columns.toNat + c) < 20)⟩))
        (s.1.matrix[i]).length s
        ⟨hri, hci, hsi, hdi, by rw [hpi]; rfl, hvi, by intro c hc; omega⟩
        (by
          intro j t hj ⟨hrj, hcj, hsj, hdj, hpj, hprev, hcur⟩
          have hjc : (j : Int) < b.columns := by omega
          have hwf : t.1.WellFormed := board.wellFormed_of_shape h hrj hcj hsj
          obtain ⟨x, hx⟩ := @board.WellFormed.at?_inside t.1 hwf i j
            (by rw [hrj, h.1]; omega) (by rw [hcj]; exact hjc)
          obtain ⟨m, hst, hsm, hat⟩ := hsj.store hi hjc
            ({ x with isAlive := decide (t.2.draws t.2.pos % (100 : Int).toNat < 20) } :
              GameOfLife.Cell)
          refine ⟨({ t.1 with matrix := m }, { t.2 with pos := t.2.pos + 1 }), ?_,
            hrj, hcj, hsm, hdj, by simp only [hpj]; omega, ?_, ?_⟩
          · unfold board.Initialize.cell
            rw [hx]
            simp only [Rand.Intn]
            rw [if_neg (by decide)]
            simp only [hst]
          · intro r c hr hc
            simp only
            rw [hat, if_neg (by omega)]
            exact hprev r c hr hc
          · intro c hc
            simp only
            rw [hat]
            by_cases e : c = j
            · subst e
              simp only [and_self, if_true, Rand.nth, hdj, hpj, Nat.add_assoc]
              rfl
            · rw [if_neg (by tauto)]
              exact hcur c (by omega))
      refine ⟨t1, ht1, hrt, hct, hst, hdt, ?_, ?_⟩
      · rw [hpt]
        have : ((s.1.matrix[i]).length : Int) = b.columns := hcl
        have e : (s.1.matrix[i]).length = b.columns.toNat := by omega
        rw [e]; ring
      · intro r c hr hc
        by_cases e : r = i
        · subst e
          exact hwt c (by omega)
        · exact hvt r c (by omega) hc)
  exact ⟨s1.1, s1.2, by unfold board.Initialize; rw [h1], hr1, hc1, hs1, hd1, hp1, hv1⟩

/-- The constructor `NewBoard` with non-negative dimensions: the board it
returns is well formed, has the requested fields, and its slot `(r, c)` is
alive exactly when the draw number `r * columns + c` is below 20. -/
theorem NewBoard_spec (rows columns : Int) (g : Rand) (hr : 0 ≤ rows) (hc : 0 ≤ columns) :
    ∃ b g1, NewBoard rows columns g = some (b, g1) ∧
      b.rows = rows ∧ b.columns = columns ∧ b.WellFormed ∧
      ∀ r c : Nat, (r : Int) < rows → (c : Int) < columns →
        Grid.at? b.matrix r c = some ⟨decide (g.nth (r * columns.toNat + c) < 20)⟩ := by
  obtain ⟨b0, h0, hr0, hc0, hwf0⟩ := NewBoard_alloc rows columns hr hc
  obtain ⟨b1, g1, h1, hr1, hc1, hs1, _, _, hv1⟩ := board.Initialize_spec hwf0 g
  refine ⟨b1, g1, ?_, by rw [hr1, hr0], by rw [hc1, hc0],
    board.wellFormed_of_shape hwf0 hr1 hc1 hs1, ?_⟩
  · have hm : make ([] : List Cell) rows = some (List.replicate rows.toNat []) := by
      simp [make, not_lt.mpr hr]
    unfold NewBoard
    rw [hm]
    simp only [List.length_replicate, h0]
    exact h1
  · intro r c hrr hcc
    have := hv1 r c (by have := hwf0.1; omega) (by rw [hc0]; exact hcc)
    rw [hc0] at this
    exact this

/-- C12: with the random source an explicit sequence of draws in 0..99 consumed
in row-major order, after `Initialize` (and so after `NewBoard`) the cell
(i, j) is alive exactly when its own draw, number `i*columns + j`, is below 20:
whatever the cell held before and whatever the other draws are.  Every draw is
below 100 and exactly 20 of the 100 values make a cell alive, the ratio
20/100 = 0.2. -/
theorem C12_cell_alive_iff_own_draw_below_twenty (b : board) (h : b.WellFormed) (g : Rand) :
    (∃ b1 g1, b.Initialize g = some (b1, g1) ∧
      (∀ i j : Nat, (i : Int) < b.rows → (j : Int) < b.columns →
        ∃ y, Grid.at? b1.matrix i j = some y ∧
          (y.isAlive = true ↔ g.nth (i * b.columns.toNat + j) < 20)) ∧
      (∀ b2 : board, b2.WellFormed → b2.rows = b.rows → b2.columns = b.columns →
        ∃ b3 g3, b2.Initialize g = some (b3, g3) ∧ b3.matrix = b1.matrix) ∧
      (∀ (g2 : Rand) (i j : Nat), (i : Int) < b.rows → (j : Int) < b.columns →
        g2.nth (i * b.columns.toNat + j) = g.nth (i * b.columns.toNat + j) →
        ∃ b4 g4, b.Initialize g2 = some (b4, g4) ∧
          Grid.at? b4.matrix i j = Grid.at? b1.matrix i j)) ∧
    (∀ rows columns : Int, 0 ≤ rows → 0 ≤ columns →
      ∃ b0 g0, NewBoard rows columns g = some (b0, g0) ∧
        ∀ i j : Nat, (i : Int) < rows → (j : Int) < columns →
          ∃ y, Grid.at? b0.matrix i j = some y ∧
            (y.isAlive = true ↔ g.nth (i * columns.toNat + j) < 20)) ∧
    (∀ k : Nat, g.nth k < 100) ∧
    ((List.range 100).filter (fun d => decide (d < 20))).length = 20 ∧
    (20 : ℚ) / 100 = 0.2 := by
  obtain ⟨b1, g1, h1, hr1, hc1, hs1, _, _, hv1⟩ := board.Initialize_spec h g
  have hwf1 : b1.WellFormed := board.wellFormed_of_shape h hr1 hc1 hs1
  refine ⟨⟨b1, g1, h1, ?_, ?_, ?_⟩, ?_, ?_, by decide, by norm_num⟩
  · intro i j hi hj
    refine ⟨_, hv1 i j (by have := h.1; omega) hj, ?_⟩
    simp
  · intro b2 h2 hr2 hc2
    obtain ⟨b3, g3, h3, hr3, hc3, hs3, _, _, hv3⟩ := board.Initialize_spec h2 g
    have hl2 : b2.matrix.length = b.matrix.length := by
      have e1 := h.1
      have e2 := h2.1
      omega
    refine ⟨b3, g3, h3, Grid.ext (by rw [hs3.1, hs1.1, hl2]) ?_⟩
    intro r c
    by_cases hin : r < b.matrix.length ∧ (c : Int) < b.columns
    · rw [hv3 r c (by rw [hl2]; exact hin.1) (by rw [hc2]; exact hin.2), hv1 r c hin.1 hin.2,
        hc2]
    · have hwf3 : b3.WellFormed := board.wellFormed_of_shape h2 hr3 hc3 hs3
      have n1 : Grid.at? b1.matrix r c = none := by
        cases hx : Grid.at? b1.matrix r c with
        | none => rfl
        | some x =>
          exfalso
          obtain ⟨row, hrow, hxc⟩ := (Grid.at?_eq_some_iff _ _ _ _).mp hx
          have a1 : r < b1.matrix.length := by
            rcases List.getElem?_eq_some_iff.mp hrow with ⟨hlt, _⟩; exact hlt
          have a2 : c < row.length := by
            rcases List.getElem?_eq_some_iff.mp hxc with ⟨hlt, _⟩; exact hlt
          have a3 := hs1.2 r row hrow
          have a4 := hs1.1
          exact hin ⟨by omega, by omega⟩
      have n3 : Grid.at? b3.matrix r c = none := by
        cases hx : Grid.at? b3.matrix r c with
        | none => rfl
        | some x =>
          exfalso
          obtain ⟨row, hrow, hxc⟩ := (Grid.at?_eq_some_iff _ _ _ _).mp hx
          have a1 : r < b3.matrix.length := by
            rcases List.getElem?_eq_some_iff.mp hrow with ⟨hlt, _⟩; exact hlt
          have a2 : c < row.length := by
            rcases List.getElem?_eq_some_iff.mp hxc with ⟨hlt, _⟩; exact hlt
          have a3 := hs3.2 r row hrow
          have a4 := hs3.1
          exact hin ⟨by omega, by omega⟩
      rw [n1, n3]
  · intro g2 i j hi hj hsame
    obtain ⟨b4, g4, h4, _, _, _, _, _, hv4⟩ := board.Initialize_spec h g2
    have hil : i < b.matrix.length := by have := h.1; omega
    exact ⟨b4, g4, h4, by rw [hv4 i j hil hj, hv1 i j hil hj, hsame]⟩
  · intro rows columns hr hc
    obtain ⟨b0, g0, h0, _, _, _, hv0⟩ := NewBoard_spec rows columns g hr hc
    refine ⟨b0, g0, h0, ?_⟩
    intro i j hi hj
    exact ⟨_, hv0 i j hi hj, by simp⟩
  · intro k
    exact Nat.mod_lt _ (by decide)

/-- C12 on a 2x3 board of live cells and the source of draws 0, 7, 14, 21, ...:
the draws 0, 7, 14 make the first row alive, the draws 21, 28, 35 make the
second row dead. -/
theorem C12_cell_alive_iff_own_draw_below_twenty_witness :
    (mkBoard 2 3 [[true, true, true], [true, true, true]]).WellFormed ∧
    ∃ b1 g1, (mkBoard 2 3 [[true, true, true], [true, true, true]]).Initialize
        ⟨fun n => 7 * n, 0⟩ = some (b1, g1) ∧
      (∃ y, Grid.at? b1.matrix 0 2 = some y ∧ y.isAlive = true) ∧
      (∃ y, Grid.at? b1.matrix 1 0 = some y ∧ y.isAlive = false) := by
  obtain ⟨⟨b1, g1, h1, hv, _, _⟩, _⟩ :=
    C12_cell_alive_iff_own_draw_below_twenty
      (mkBoard 2 3 [[true, true, true], [true, true, true]]) (by decide) ⟨fun n => 7 * n, 0⟩
  refine ⟨by decide, b1, g1, h1, ?_, ?_⟩
  · obtain ⟨y, hy, hiff⟩ := hv 0 2 (by decide) (by decide)
    exact ⟨y, hy, hiff.mpr (by decide)⟩
  · obtain ⟨y, hy, hiff⟩ := hv 1 0 (by decide) (by decide)
    refine ⟨y, hy, ?_⟩
    cases hya : y.isAlive with
    | false => rfl
    | true => exact absurd (hiff.mp hya) (by decide)

/-! ## Degenerate boards -/

/-- The text of a grid whose rows are all empty: one newline per row. -/
theorem render_of_empty_rows (m : List (List Cell)) (hm : ∀ row ∈ m, row = []) :
    (render m).data = List.replicate m.length '\n' := by
  induction m with
  | nil => rfl
  | cons row m ih =>
    have h1 : row = [] := hm row (by simp)
    have h2 := ih (fun r hr => hm r (by simp [hr]))
    subst h1
    show (concat ((renderLine [] ++ "\n") :: m.map (fun row => renderLine row ++ "\n"))).data = _
    simp only [concat, String.data_append, List.length_cons, List.replicate_succ]
    have e : (render m).data = (concat (m.map (fun row => renderLine row ++ "\n"))).data := rfl
    rw [← e, h2]
    rfl

/-- C15: degenerate boards are permitted and behave consistently.
`NewBoard(0, 0)` yields the empty board, on which `Neighbours()` returns an
empty grid, `Iterate` returns a nil error and leaves the board empty,
`String()` returns the empty string and `Cell(r, c)` fails for every (r, c);
for `rows > 0` and `columns = 0` the text `String()` returns consists of
exactly `rows` newline characters. -/
theorem C15_degenerate_boards_are_consistent (g : Rand) (rows : Int) (hrows : 0 < rows) :
    NewBoard 0 0 g = some (emptyBoard, g) ∧
    emptyBoard.Neighbours = some (emptyBoard, []) ∧
    emptyBoard.Iterate = some (emptyBoard, none) ∧
    emptyBoard.String = some (emptyBoard, "") ∧
    (∀ r c : Int, ∃ msg, emptyBoard.Cell r c = some (none, some msg)) ∧
    (∃ b g1 s, NewBoard rows 0 g = some (b, g1) ∧ b.rows = rows ∧ b.columns = 0 ∧
      b.String = some (b, s) ∧ s.data = List.replicate rows.toNat '\n' ∧
      (s.length : Int) = rows) := by
  refine ⟨rfl, by decide, by decide, by decide, ?_, ?_⟩
  · intro r c
    apply board.Cell_outside
    intro hin
    obtain ⟨h0, h1, _, _⟩ := hin
    have : emptyBoard.rows = 0 := rfl
    omega
  · obtain ⟨b, g1, hN, hr, hc, hwf⟩ := NewBoard_shape rows 0 g (le_of_lt hrows) (le_refl 0)
    have hempty : ∀ row ∈ b.matrix, row = [] := by
      intro row hrow
      have := hwf.2 row hrow
      exact List.length_eq_zero.mp (by omega)
    have hlen : b.matrix.length = rows.toNat := by have := hwf.1; omega
    have hdata := render_of_empty_rows b.matrix hempty
    rw [hlen] at hdata
    refine ⟨b, g1, render b.matrix, hN, hr, hc, boardString_spec b, hdata, ?_⟩
    have : (render b.matrix).length = (render b.matrix).data.length := rfl
    rw [this, hdata, List.length_replicate]
    omega

/-- C15 with three rows and no columns: the text is three newlines. -/
theorem C15_degenerate_boards_are_consistent_witness :
    (0 : Int) < 3 ∧
    ∃ b g1 s, NewBoard 3 0 ⟨fun n => 7 * n, 0⟩ = some (b, g1) ∧ b.String = some (b, s) ∧
      s.data = ['\n', '\n', '\n'] := by
  obtain ⟨_, _, _, _, _, b, g1, s, hN, _, _, hS, hdata, _⟩ :=
    C15_degenerate_boards_are_consistent ⟨fun n => 7 * n, 0⟩ 3 (by decide)
  exact ⟨by decide, b, g1, s, hN, hS, hdata⟩

/-! ## Fixed points of the step -/

/-- The spec's count as a sum over the eight adjacent positions. -/
theorem board.liveNeighbours_eq_sum8 (b : board) (r c : Nat) :
    b.liveNeighbours r c = sum8 b.liveCount r c := by
  rw [board.liveNeighbours_eq_explicit, ← List.countP_eq_length_filter]
  simp only [List.countP_cons, List.countP_nil, sum8, board.liveCount]
  ac_rfl

/-- A cell is left as it is by the rule exactly when it is alive with count 2
or 3, or dead with count at most 3. -/
theorem Cell.Iterate_eq_self_iff (x : Cell) (n : Nat) :
    x.Iterate n = x ↔
      (x.isAlive = true → n = 2 ∨ n = 3) ∧ (x.isAlive = false → n ≤ 3) := by
  obtain ⟨a⟩ := x
  cases a <;> by_cases h1 : n < 2 <;> by_cases h2 : n > 3 <;>
    simp [Cell.Iterate, h1, h2] <;> omega

/-- When every slot satisfies the fixed-point condition on its spec count (and
only then) the pointwise result of `Iterate` is the matrix itself. -/
theorem board.Iterate_fixed_iff {b b1 : board} (hlen : b1.matrix.length = b.matrix.length)
    (hv : ∀ r c : Nat, Grid.at? b1.matrix r c =
      (Grid.at? b.matrix r c).map (fun x => x.Iterate (b.liveNeighbours r c))) :
    b1.matrix = b.matrix ↔
      ∀ (r c : Nat) (x : GameOfLife.Cell), Grid.at? b.matrix r c = some x →
        x.Iterate (b.liveNeighbours r c) = x := by
  constructor
  · intro hm r c x hx
    have := hv r c
    rw [hm, hx] at this
    simpa using this.symm
  · intro hfix
    apply Grid.ext hlen
    intro r c
    rw [hv]
    cases hx : Grid.at? b.matrix r c with
    | none => rfl
    | some x => simp [hfix r c x hx]

/-- On a board without live cells no position is live. -/
theorem board.liveAt_of_all_dead (b : board)
    (hdead : ∀ (r c : Nat) (x : GameOfLife.Cell), Grid.at? b.matrix r c = some x →
      x.isAlive = false) (r c : Int) : b.liveAt r c = false := by
  unfold board.liveAt
  cases hx : Grid.at? b.matrix r.toNat c.toNat with
  | none => simp
  | some x => simp [hdead _ _ x hx]

/-- On a well-formed board whose only live cells are the 2x2 block with top
left corner `(i, j)`, the live positions are the four positions of the block. -/
theorem board.liveAt_of_block {b : board} (h : b.WellFormed) (i j : Nat)
    (hi : (i : Int) + 1 < b.rows) (hj : (j : Int) + 1 < b.columns)
    (hblock : ∀ (r c : Nat) (x : GameOfLife.Cell), Grid.at? b.matrix r c = some x →
      (x.isAlive = true ↔ (r = i ∨ r = i + 1) ∧ (c = j ∨ c = j + 1))) (r c : Int) :
    b.liveAt r c = decide ((r = i ∨ r = i + 1) ∧ (c = j ∨ c = j + 1)) := by
  by_cases hin : b.inside r c
  · obtain ⟨_, x, hx⟩ := board.Cell_inside h r c hin
    obtain ⟨h0, h1, h2, h3⟩ := hin
    have hb := hblock _ _ x hx
    have e : b.liveAt r c = x.isAlive := by simp [board.liveAt, board.inside, h0, h1, h2, h3, hx]
    rw [e]
    cases hxa : x.isAlive with
    | true =>
      have := hb.mp hxa
      symm
      rw [decide_eq_true_eq]
      omega
    | false =>
      have : ¬ ((r.toNat = i ∨ r.toNat = i + 1) ∧ (c.toNat = j ∨ c.toNat = j + 1)) := by
        intro hcon
        have := hb.mpr hcon
        rw [hxa] at this
        exact absurd this (by decide)
      symm
      rw [decide_eq_false_iff_not]
      omega
  · have e : b.liveAt r c = false := by simp [board.liveAt, hin]
    rw [e]
    symm
    rw [decide_eq_false_iff_not]
    unfold board.inside at hin
    omega

/-- Around a 2x2 block: a cell of the block has exactly 3 of the other block
cells adjacent, a cell outside the block has at most 2. -/
theorem sum8_block (i j r c : Int) :
    (((r = i ∨ r = i + 1) ∧ (c = j ∨ c = j + 1)) →
      sum8 (fun x y => if (x = i ∨ x = i + 1) ∧ (y = j ∨ y = j + 1) then 1 else 0) r c = 3) ∧
    (¬ ((r = i ∨ r = i + 1) ∧ (c = j ∨ c = j + 1)) →
      sum8 (fun x y => if (x = i ∨ x = i + 1) ∧ (y = j ∨ y = j + 1) then 1 else 0) r c ≤ 2) := by
  simp only [sum8]
  by_cases p1 : (r - 1 = i ∨ r - 1 = i + 1) <;>
  by_cases p2 : (r = i ∨ r = i + 1) <;>
  by_cases p3 : (r + 1 = i ∨ r + 1 = i + 1) <;>
  by_cases q1 : (c - 1 = j ∨ c - 1 = j + 1) <;>
  by_cases q2 : (c = j ∨ c = j + 1) <;>
  by_cases q3 : (c + 1 = j ∨ c + 1 = j + 1) <;>
  simp only [p1, p2, p3, q1, q2, q3, and_self, and_true, true_and, and_false, false_and,
    if_true, if_false, not_true_eq_false, not_false_eq_true, true_implies, false_implies] <;>
  omega

/-- C16: fixed points of the step.  On a well-formed board `Iterate` leaves
every cell unchanged if and only if every live cell has 2 or 3 live neighbours
and every dead cell has at most 3 (counts as `Neighbours` computes them on the
board before the call).  In particular a board of any size without live cells
is unchanged, and so is a board whose only live cells form a 2x2 block. -/
theorem C16_fixed_points_of_iterate (b : board) (h : b.WellFormed) :
    ∃ b1 nb, b.Neighbours = some (b, nb) ∧ b.Iterate = some (b1, none) ∧
      b1.rows = b.rows ∧ b1.columns = b.columns ∧
      (b1.matrix = b.matrix ↔
        ∀ (r c : Nat) (x : Cell) (n : Nat),
          Grid.at? b.matrix r c = some x → Grid.at? nb r c = some n →
            (x.isAlive = true → n = 2 ∨ n = 3) ∧ (x.isAlive = false → n ≤ 3)) ∧
      ((∀ (r c : Nat) (x : Cell), Grid.at? b.matrix r c = some x → x.isAlive = false) →
        b1.matrix = b.matrix) ∧
      (∀ i j : Nat, (i : Int) + 1 < b.rows → (j : Int) + 1 < b.columns →
        (∀ (r c : Nat) (x : Cell), Grid.at? b.matrix r c = some x →
          (x.isAlive = true ↔ (r = i ∨ r = i + 1) ∧ (c = j ∨ c = j + 1))) →
        b1.matrix = b.matrix) := by
  obtain ⟨nb, hN, _, hval⟩ := board.Neighbours_spec h
  obtain ⟨b1, hI, hr1, hc1, _, hlen, hv⟩ := board.Iterate_spec h
  have hfix := board.Iterate_fixed_iff hlen hv
  have hin : ∀ (r c : Nat) (x : Cell), Grid.at? b.matrix r c = some x →
      r < b.matrix.length ∧ (c : Int) < b.columns := by
    intro r c x hx
    obtain ⟨row, hrow, hxc⟩ := (Grid.at?_eq_some_iff _ _ _ _).mp hx
    have a1 : r < b.matrix.length := by
      rcases List.getElem?_eq_some_iff.mp hrow with ⟨hlt, _⟩; exact hlt
    have a2 : c < row.length := by
      rcases List.getElem?_eq_some_iff.mp hxc with ⟨hlt, _⟩; exact hlt
    have a3 := h.row_length hrow
    exact ⟨a1, by omega⟩
  refine ⟨b1, nb, hN, hI, hr1, hc1, ?_, ?_, ?_⟩
  · rw [hfix]
    constructor
    · intro hall r c x n hx hn
      obtain ⟨a1, a2⟩ := hin r c x hx
      rw [hval r c a1 a2] at hn
      have e : b.liveNeighbours r c = n := by simpa using hn
      rw [← e]
      exact (Cell.Iterate_eq_self_iff x _).mp (hall r c x hx)
    · intro hall r c x hx
      obtain ⟨a1, a2⟩ := hin r c x hx
      exact (Cell.Iterate_eq_self_iff x _).mpr (hall r c x _ hx (hval r c a1 a2))
  · intro hdead
    rw [hfix]
    intro r c x hx
    have hz : b.liveNeighbours r c = 0 := by
      rw [board.liveNeighbours_eq_sum8]
      simp [sum8, board.liveCount, board.liveAt_of_all_dead b hdead]
    rw [hz, Cell.Iterate_eq_self_iff]
    have hxd := hdead r c x hx
    exact ⟨fun ha => by rw [hxd] at ha; exact absurd ha (by decide), fun _ => by omega⟩
  · intro i j hi hj hblock
    rw [hfix]
    intro r c x hx
    have hcount : b.liveCount =
        fun x y => if (x = (i : Int) ∨ x = (i : Int) + 1) ∧ (y = (j : Int) ∨ y = (j : Int) + 1)
          then 1 else 0 := by
      funext x y
      simp [board.liveCount, board.liveAt_of_block h i j hi hj hblock]
    have hsum := sum8_block i j r c
    rw [← hcount, ← board.liveNeighbours_eq_sum8] at hsum
    rw [Cell.Iterate_eq_self_iff]
    have hb := hblock r c x hx
    constructor
    · intro ha
      have hpos := hb.mp ha
      have := hsum.1 (by omega)
      omega
    · intro ha
      have hneg : ¬ ((r = i ∨ r = i + 1) ∧ (c = j ∨ c = j + 1)) := by
        intro hcon
        have := hb.mpr hcon
        rw [ha] at this
        exact absurd this (by decide)
      have := hsum.2 (by omega)
      omega

/-- C16 on the 4x4 board whose only live cells are the 2x2 block in the middle:
one `Iterate` leaves the matrix as it was. -/
theorem C16_fixed_points_of_iterate_witness :
    block4.WellFormed ∧
    ∃ b1 nb, block4.Neighbours = some (block4, nb) ∧ block4.Iterate = some (b1, none) ∧
      b1.matrix = block4.matrix := by
  obtain ⟨b1, nb, hN, hI, _, _, _, _, _⟩ := C16_fixed_points_of_iterate block4 (by decide)
  refine ⟨by decide, b1, nb, hN, hI, ?_⟩
  have e : block4.Iterate = some (block4, none) := by decide
  rw [hI] at e
  simp only [Option.some.injEq, Prod.mk.injEq] at e
  rw [e.1]

/-! ## Symmetries of the grid -/

theorem sum8_flip_rows (f : Int → Int → Nat) (a r c : Int) :
    sum8 (fun x y => f (a - x) y) r c = sum8 f (a - r) c := by
  simp only [sum8]
  have e1 : a - (r - 1) = a - r + 1 := by ring
  have e2 : a - (r + 1) = a - r - 1 := by ring
  rw [e1, e2]
  ac_rfl

theorem sum8_flip_columns (f : Int → Int → Nat) (a r c : Int) :
    sum8 (fun x y => f x (a - y)) r c = sum8 f r (a - c) := by
  simp only [sum8]
  have e1 : a - (c - 1) = a - c + 1 := by ring
  have e2 : a - (c + 1) = a - c - 1 := by ring
  rw [e1, e2]
  ac_rfl

theorem sum8_swap (f : Int → Int → Nat) (r c : Int) :
    sum8 (fun x y => f y x) r c = sum8 f c r := by
  simp only [sum8]
  ac_rfl

/-- A grid of the shape of the board has an item exactly at the positions
inside the board. -/
theorem board.ShapeOf.at?_isSome {b : board} {α : Type} {g : List (List α)} (hg : b.ShapeOf g)
    {r c : Nat} (hr : r < b.matrix.length) (hc : (c : Int) < b.columns) :
    ∃ v, Grid.at? g r c = some v := by
  have hlen : r < g.length := by rw [hg.1]; exact hr
  have hrow : g[r]? = some g[r] := List.getElem?_eq_getElem hlen
  have hcl : c < (g[r]).length := by have := hg.2 r _ hrow; omega
  exact ⟨_, by rw [Grid.at?_of_row hrow]; exact List.getElem?_eq_getElem hcl⟩

theorem board.ShapeOf.at?_none {b : board} {α : Type} {g : List (List α)} (hg : b.ShapeOf g)
    {r c : Nat} (hout : ¬ (r < b.matrix.length ∧ (c : Int) < b.columns)) :
    Grid.at? g r c = none := by
  cases hx : Grid.at? g r c with
  | none => rfl
  | some x =>
    exfalso
    obtain ⟨row, hrow, hxc⟩ := (Grid.at?_eq_some_iff _ _ _ _).mp hx
    have a1 : r < g.length := by
      rcases List.getElem?_eq_some_iff.mp hrow with ⟨hlt, _⟩; exact hlt
    have a2 : c < row.length := by
      rcases List.getElem?_eq_some_iff.mp hxc with ⟨hlt, _⟩; exact hlt
    have a3 := hg.2 r row hrow
    have a4 := hg.1
    exact hout ⟨by omega, by omega⟩

/-- Two grids of the shape of the board that agree inside the board are equal. -/
theorem board.ShapeOf.grid_eq {b : board} {α : Type} {g1 g2 : List (List α)}
    (h1 : b.ShapeOf g1) (h2 : b.ShapeOf g2)
    (hv : ∀ r c : Nat, r < b.matrix.length → (c : Int) < b.columns →
      Grid.at? g1 r c = Grid.at? g2 r c) : g1 = g2 := by
  apply Grid.ext (by rw [h1.1, h2.1])
  intro r c
  by_cases hin : r < b.matrix.length ∧ (c : Int) < b.columns
  · exact hv r c hin.1 hin.2
  · rw [h1.at?_none hin, h2.at?_none hin]

/-- A position is live on `b2` at `(x2, y2)` as on `b` at `(x, y)` when the two
positions are inside together and then hold the same cell. -/
theorem board.liveAt_transfer (b b2 : board) (x y x2 y2 : Int)
    (hin : b2.inside x2 y2 ↔ b.inside x y)
    (hat : b.inside x y →
      Grid.at? b2.matrix x2.toNat y2.toNat = Grid.at? b.matrix x.toNat y.toNat) :
    b2.liveAt x2 y2 = b.liveAt x y := by
  unfold board.liveAt
  by_cases h : b.inside x y
  · rw [hat h]
    simp [h, hin.mpr h]
  · have h2 : ¬ b2.inside x2 y2 := fun hcon => h (hin.mp hcon)
    simp [h, h2]

/-! ### Reversing the order of the rows -/

theorem Grid.at?_reverse {α : Type} (g : List (List α)) (r c : Nat) (hr : r < g.length) :
    Grid.at? g.reverse r c = Grid.at? g (g.length - 1 - r) c := by
  unfold Grid.at?
  rw [List.getElem?_reverse hr]

theorem board.flipRows_shapeOf {b : board} {α : Type} {g : List (List α)} (hg : b.ShapeOf g) :
    b.flipRows.ShapeOf g.reverse := by
  refine ⟨by simp [board.flipRows, hg.1], ?_⟩
  intro r row hrow
  have hmem : row ∈ g := List.mem_reverse.mp (List.getElem?_mem hrow)
  obtain ⟨n, hn⟩ := List.mem_iff_getElem?.mp hmem
  exact hg.2 n row hn

theorem board.flipRows_wellFormed {b : board} (h : b.WellFormed) : b.flipRows.WellFormed := by
  refine ⟨by simp [board.flipRows, h.1], ?_⟩
  intro row hrow
  exact h.2 row (List.mem_reverse.mp hrow)

/-! ### Reversing the order of the cells in every row -/

theorem Grid.at?_map_reverse {α : Type} (g : List (List α)) (r c : Nat) (row : List α)
    (hrow : g[r]? = some row) (hc : c < row.length) :
    Grid.at? (g.map List.reverse) r c = Grid.at? g r (row.length - 1 - c) := by
  unfold Grid.at?
  rw [List.getElem?_map, hrow]
  simp only [Option.map_some']
  rw [List.getElem?_reverse hc]

theorem board.flipColumns_shapeOf {b : board} {α : Type} {g : List (List α)}
    (hg : b.ShapeOf g) : b.flipColumns.ShapeOf (g.map List.reverse) := by
  refine ⟨by simp [board.flipColumns, hg.1], ?_⟩
  intro r row hrow
  rw [List.getElem?_map] at hrow
  cases hr : g[r]? with
  | none => rw [hr] at hrow; simp at hrow
  | some row0 =>
    rw [hr] at hrow
    simp only [Option.map_some', Option.some.injEq] at hrow
    rw [← hrow, List.length_reverse]
    exact hg.2 r row0 hr

theorem board.flipColumns_wellFormed {b : board} (h : b.WellFormed) :
    b.flipColumns.WellFormed := by
  refine ⟨by simp [board.flipColumns, h.1], ?_⟩
  intro row hrow
  obtain ⟨row0, hrow0, rfl⟩ := List.mem_map.mp hrow
  rw [List.length_reverse]
  exact h.2 row0 hrow0

/-! ### Transposing -/

theorem Grid.at?_transpose {α : Type} (rows columns : Nat) (d : α) (g : List (List α))
    (r c : Nat) :
    Grid.at? (Grid.transpose rows columns d g) r c =
      if r < columns ∧ c < rows then some ((Grid.at? g c r).getD d) else none := by
  unfold Grid.at? Grid.transpose
  rw [List.getElem?_map]
  by_cases hr : r < columns
  · rw [List.getElem?_range hr]
    simp only [Option.map_some']
    rw [List.getElem?_map]
    by_cases hc : c < rows
    · rw [List.getElem?_range hc]
      simp [hr, hc, Grid.at?]
    · rw [List.getElem?_eq_none (by simp; omega)]
      simp [hc]
  · rw [List.getElem?_eq_none (by simp; omega)]
    simp [hr]

theorem board.transpose_shapeOf {b : board} {α : Type} (d : α) (g : List (List α)) :
    b.transpose.ShapeOf (Grid.transpose b.matrix.length b.columns.toNat d g) := by
  refine ⟨by simp [board.transpose, Grid.transpose], ?_⟩
  intro r row hrow
  unfold Grid.transpose at hrow
  rw [List.getElem?_map] at hrow
  cases hr : (List.range b.columns.toNat)[r]? with
  | none => rw [hr] at hrow; simp at hrow
  | some k =>
    rw [hr] at hrow
    simp only [Option.map_some', Option.some.injEq] at hrow
    rw [← hrow]
    simp [board.transpose]

theorem board.transpose_wellFormed (b : board) : b.transpose.WellFormed := by
  have hs := @board.transpose_shapeOf b GameOfLife.Cell ⟨false⟩ b.matrix
  refine ⟨by simp [board.transpose, Grid.transpose], ?_⟩
  intro row hrow
  obtain ⟨n, hn⟩ := List.mem_iff_getElem?.mp hrow
  exact hs.2 n row hn

theorem board.flipRows_liveNeighbours {b : board} (h : b.WellFormed) (r c : Nat)
    (hr : r < b.matrix.length) :
    b.flipRows.liveNeighbours r c = b.liveNeighbours (b.matrix.length - 1 - r) c := by
  have hcount : b.flipRows.liveCount = fun x y => b.liveCount (b.rows - 1 - x) y := by
    funext x y
    unfold board.liveCount
    rw [board.liveAt_transfer b b.flipRows (b.rows - 1 - x) y x y]
    · have e : b.flipRows.rows = b.rows := rfl
      unfold board.inside
      rw [e]
      exact ⟨fun ⟨a1, a2, a3, a4⟩ => ⟨by omega, by omega, a3, a4⟩,
        fun ⟨a1, a2, a3, a4⟩ => ⟨by omega, by omega, a3, a4⟩⟩
    · intro ⟨a1, a2, a3, a4⟩
      have hl := h.1
      show Grid.at? b.matrix.reverse x.toNat y.toNat = _
      rw [Grid.at?_reverse _ _ _ (by omega)]
      congr 1
      omega
  rw [board.liveNeighbours_eq_sum8, board.liveNeighbours_eq_sum8, hcount,
    sum8_flip_rows b.liveCount (b.rows - 1) r c]
  congr 1
  have hl := h.1
  omega

theorem board.flipColumns_liveNeighbours {b : board} (h : b.WellFormed) (r c : Nat)
    (hc : (c : Int) < b.columns) :
    b.flipColumns.liveNeighbours r c = b.liveNeighbours r (b.columns.toNat - 1 - c) := by
  have hcount : b.flipColumns.liveCount = fun x y => b.liveCount x (b.columns - 1 - y) := by
    funext x y
    unfold board.liveCount
    rw [board.liveAt_transfer b b.flipColumns x (b.columns - 1 - y) x y]
    · have e1 : b.flipColumns.rows = b.rows := rfl
      have e2 : b.flipColumns.columns = b.columns := rfl
      unfold board.inside
      rw [e1, e2]
      exact ⟨fun ⟨a1, a2, a3, a4⟩ => ⟨a1, a2, by omega, by omega⟩,
        fun ⟨a1, a2, a3, a4⟩ => ⟨a1, a2, by omega, by omega⟩⟩
    · intro ⟨a1, a2, a3, a4⟩
      have hl := h.1
      have hxl : x.toNat < b.matrix.length := by omega
      have hrow : b.matrix[x.toNat]? = some b.matrix[x.toNat] := List.getElem?_eq_getElem hxl
      have hrl := h.row_length hrow
      have e : b.flipColumns.matrix = b.matrix.map List.reverse := rfl
      rw [e, Grid.at?_map_reverse _ _ _ _ hrow (by omega)]
      congr 1
      omega
  rw [board.liveNeighbours_eq_sum8, board.liveNeighbours_eq_sum8, hcount,
    sum8_flip_columns b.liveCount (b.columns - 1) r c]
  congr 1
  omega

theorem board.transpose_liveNeighbours {b : board} (h : b.WellFormed) (r c : Nat) :
    b.transpose.liveNeighbours r c = b.liveNeighbours c r := by
  have hcount : b.transpose.liveCount = fun x y => b.liveCount y x := by
    funext x y
    unfold board.liveCount
    rw [board.liveAt_transfer b b.transpose y x x y]
    · have e1 : b.transpose.rows = (b.columns.toNat : Int) := rfl
      have e2 : b.transpose.columns = (b.matrix.length : Int) := rfl
      have hl := h.1
      unfold board.inside
      rw [e1, e2]
      exact ⟨fun ⟨a1, a2, a3, a4⟩ => ⟨a3, by omega, a1, by omega⟩,
        fun ⟨a1, a2, a3, a4⟩ => ⟨a3, by omega, a1, by omega⟩⟩
    · intro hin
      obtain ⟨_, v, hv⟩ := board.Cell_inside h y x hin
      obtain ⟨a1, a2, a3, a4⟩ := hin
      have hl := h.1
      have e : b.transpose.matrix =
          Grid.transpose b.matrix.length b.columns.toNat ⟨false⟩ b.matrix := rfl
      rw [e, Grid.at?_transpose, if_pos ⟨by omega, by omega⟩, hv]
      rfl
  rw [board.liveNeighbours_eq_sum8, board.liveNeighbours_eq_sum8, hcount, sum8_swap]

/-- Transfer along a relabelling of positions: when `b2` holds at every inside
position `(r, c)` the cell `b` holds at `p r c`, with the same live neighbour
count, then the counts and the next generation of `b2` are those of `b`
relabelled in the same way. -/
theorem board.symmetry_transfer {b b2 : board} (h : b.WellFormed) (h2 : b2.WellFormed)
    (p : Nat → Nat → Nat × Nat)
    (H1 : ∀ r c : Nat, r < b2.matrix.length → (c : Int) < b2.columns →
      (p r c).1 < b.matrix.length ∧ (((p r c).2 : Nat) : Int) < b.columns)
    (H2 : ∀ r c : Nat, r < b2.matrix.length → (c : Int) < b2.columns →
      Grid.at? b2.matrix r c = Grid.at? b.matrix (p r c).1 (p r c).2)
    (H3 : ∀ r c : Nat, r < b2.matrix.length → (c : Int) < b2.columns →
      b2.liveNeighbours r c = b.liveNeighbours (p r c).1 (p r c).2)
    {nb : List (List Nat)} {b1 : board}
    (hN : b.Neighbours = some (b, nb)) (hI : b.Iterate = some (b1, none)) :
    ∃ nb2 b3, b2.Neighbours = some (b2, nb2) ∧ b2.Iterate = some (b3, none) ∧
      b2.ShapeOf nb2 ∧ b2.ShapeOf b3.matrix ∧ b3.rows = b2.rows ∧ b3.columns = b2.columns ∧
      (∀ r c : Nat, r < b2.matrix.length → (c : Int) < b2.columns →
        Grid.at? nb2 r c = Grid.at? nb (p r c).1 (p r c).2) ∧
      (∀ r c : Nat, r < b2.matrix.length → (c : Int) < b2.columns →
        Grid.at? b3.matrix r c = Grid.at? b1.matrix (p r c).1 (p r c).2) := by
  obtain ⟨nb0, hN0, _, hval⟩ := board.Neighbours_spec h
  obtain ⟨b10, hI0, _, _, _, _, hv⟩ := board.Iterate_spec h
  rw [hN] at hN0
  rw [hI] at hI0
  simp only [Option.some.injEq, Prod.mk.injEq, true_and] at hN0
  simp only [Option.some.injEq, Prod.mk.injEq, and_true] at hI0
  subst hN0; subst hI0
  obtain ⟨nb2, hN2, hsh2, hval2⟩ := board.Neighbours_spec h2
  obtain ⟨b3, hI2, hr3, hc3, hwf3, hlen3, hv3⟩ := board.Iterate_spec h2
  have hs3 : b2.ShapeOf b3.matrix :=
    ⟨hlen3, fun r row hrow => by rw [← hc3]; exact hwf3.row_length hrow⟩
  refine ⟨nb2, b3, hN2, hI2, hsh2, hs3, hr3, hc3, ?_, ?_⟩
  · intro r c hr hc
    obtain ⟨a1, a2⟩ := H1 r c hr hc
    rw [hval2 r c hr hc, hval _ _ a1 a2, H3 r c hr hc]
  · intro r c hr hc
    rw [hv3, hv, H2 r c hr hc, H3 r c hr hc]

theorem board.eq_of_fields {b1 b2 : board} (hr : b1.rows = b2.rows)
    (hc : b1.columns = b2.columns) (hm : b1.matrix = b2.matrix) : b1 = b2 := by
  cases b1; cases b2
  simp only at hr hc hm
  subst hr; subst hc; subst hm
  rfl

/-- C17: `Iterate` and `Neighbours` commute with the symmetries of the grid.
On a well-formed board, reversing the order of the rows (or of the cells in
every row) and then calling `Iterate` gives the board that `Iterate` followed
by the reversal gives, and transposing and then calling `Iterate` gives the
transpose of the iterated board; likewise the counts of the reversed or
transposed board are the reversed or transposed counts. -/
theorem C17_iterate_commutes_with_symmetries (b : board) (h : b.WellFormed) :
    ∃ b1 nb, b.Neighbours = some (b, nb) ∧ b.Iterate = some (b1, none) ∧
      (b.flipRows.Neighbours = some (b.flipRows, nb.reverse) ∧
        b.flipRows.Iterate = some (b1.flipRows, none)) ∧
      (b.flipColumns.Neighbours = some (b.flipColumns, nb.map List.reverse) ∧
        b.flipColumns.Iterate = some (b1.flipColumns, none)) ∧
      (b.transpose.Neighbours =
          some (b.transpose, Grid.transpose b.matrix.length b.columns.toNat 0 nb) ∧
        b.transpose.Iterate = some (b1.transpose, none)) := by
  obtain ⟨nb, hN, hsh, _⟩ := board.Neighbours_spec h
  obtain ⟨b1, hI, hr1, hc1, hwf1, hlen1, _⟩ := board.Iterate_spec h
  have hs1 : b.ShapeOf b1.matrix :=
    ⟨hlen1, fun r row hrow => by rw [← hc1]; exact hwf1.row_length hrow⟩
  have hl := h.1
  refine ⟨b1, nb, hN, hI, ?_, ?_, ?_⟩
  · -- rows reversed
    have hm : b.flipRows.matrix.length = b.matrix.length := by simp [board.flipRows]
    obtain ⟨nb2, b3, hN2, hI2, hsh2, hs3, hr3, hc3, hvn, hvb⟩ :=
      board.symmetry_transfer h (board.flipRows_wellFormed h)
        (fun r c => (b.matrix.length - 1 - r, c))
        (fun r c hr hc => ⟨by simp only; omega, hc⟩)
        (fun r c hr hc => Grid.at?_reverse _ _ _ (by omega))
        (fun r c hr hc => board.flipRows_liveNeighbours h r c (by omega))
        hN hI
    have e1 : nb2 = nb.reverse := by
      apply hsh2.grid_eq (board.flipRows_shapeOf hsh)
      intro r c hr hc
      rw [hvn r c hr hc, Grid.at?_reverse _ _ _ (by rw [hsh.1]; omega), hsh.1]
    have e2 : b3 = b1.flipRows := by
      apply board.eq_of_fields
      · rw [hr3]; exact hr1.symm
      · rw [hc3]; exact hc1.symm
      · apply hs3.grid_eq (board.flipRows_shapeOf hs1)
        intro r c hr hc
        rw [hvb r c hr hc]
        show _ = Grid.at? b1.matrix.reverse r c
        rw [Grid.at?_reverse _ _ _ (by rw [hs1.1]; omega), hs1.1]
    rw [← e1, ← e2]
    exact ⟨hN2, hI2⟩
  · -- cells reversed in every row
    have hm : b.flipColumns.matrix.length = b.matrix.length := by simp [board.flipColumns]
    have hcc : b.flipColumns.columns = b.columns := rfl
    obtain ⟨nb2, b3, hN2, hI2, hsh2, hs3, hr3, hc3, hvn, hvb⟩ :=
      board.symmetry_transfer h (board.flipColumns_wellFormed h)
        (fun r c => (r, b.columns.toNat - 1 - c))
        (fun r c hr hc => ⟨by simp only; omega, by simp only; omega⟩)
        (fun r c hr hc => by
          obtain ⟨row, hrow⟩ : ∃ row, b.matrix[r]? = some row :=
            ⟨_, List.getElem?_eq_getElem (by omega)⟩
          have hrl := h.row_length hrow
          show Grid.at? (b.matrix.map List.reverse) r c = _
          rw [Grid.at?_map_reverse _ _ _ _ hrow (by omega)]
          have : row.length = b.columns.toNat := by omega
          rw [this])
        (fun r c hr hc => board.flipColumns_liveNeighbours h r c hc)
        hN hI
    have key : ∀ {α : Type} (g : List (List α)), b.ShapeOf g →
        ∀ r c : Nat, r < b.matrix.length → (c : Int) < b.columns →
          Grid.at? (g.map List.reverse) r c = Grid.at? g r (b.columns.toNat - 1 - c) := by
      intro α g hg r c hr hc
      obtain ⟨row, hrow⟩ : ∃ row, g[r]? = some row :=
        ⟨_, List.getElem?_eq_getElem (by rw [hg.1]; exact hr)⟩
      have hrl := hg.2 r _ hrow
      rw [Grid.at?_map_reverse _ _ _ _ hrow (by omega)]
      have : row.length = b.columns.toNat := by omega
      rw [this]
    have e1 : nb2 = nb.map List.reverse := by
      apply hsh2.grid_eq (board.flipColumns_shapeOf hsh)
      intro r c hr hc
      rw [hvn r c hr hc, key nb hsh r c (by omega) hc]
    have e2 : b3 = b1.flipColumns := by
      apply board.eq_of_fields
      · rw [hr3]; exact hr1.symm
      · rw [hc3]; exact hc1.symm
      · apply hs3.grid_eq (board.flipColumns_shapeOf hs1)
        intro r c hr hc
        rw [hvb r c hr hc]
        show _ = Grid.at? (b1.matrix.map List.reverse) r c
        rw [key b1.matrix hs1 r c (by omega) hc]
    rw [← e1, ← e2]
    exact ⟨hN2, hI2⟩
  · -- transposed
    have hm : b.transpose.matrix.length = b.columns.toNat := by
      simp [board.transpose, Grid.transpose]
    have hcc : b.transpose.columns = (b.matrix.length : Int) := rfl
    obtain ⟨nb2, b3, hN2, hI2, hsh2, hs3, hr3, hc3, hvn, hvb⟩ :=
      board.symmetry_transfer h (board.transpose_wellFormed b)
        (fun r c => (c, r))
        (fun r c hr hc => ⟨by simp only; omega, by simp only; omega⟩)
        (fun r c hr hc => by
          obtain ⟨v, hv⟩ := @board.ShapeOf.at?_isSome b _ _ (board.shapeOf_matrix h) c r
            (by omega) (by omega)
          show Grid.at? (Grid.transpose b.matrix.length b.columns.toNat ⟨false⟩ b.matrix) r c = _
          rw [Grid.at?_transpose, if_pos ⟨by omega, by omega⟩, hv]
          rfl)
        (fun r c hr hc => board.transpose_liveNeighbours h r c)
        hN hI
    have key : ∀ {α : Type} (d : α) (g : List (List α)), b.ShapeOf g →
        ∀ r c : Nat, r < b.columns.toNat → c < b.matrix.length →
          Grid.at? (Grid.transpose b.matrix.length b.columns.toNat d g) r c =
            Grid.at? g c r := by
      intro α d g hg r c hr hc
      obtain ⟨v, hv⟩ := @board.ShapeOf.at?_isSome b _ _ hg c r hc (by omega)
      rw [Grid.at?_transpose, if_pos ⟨hr, hc⟩, hv]
      rfl
    have e1 : nb2 = Grid.transpose b.matrix.length b.columns.toNat 0 nb := by
      apply hsh2.grid_eq (board.transpose_shapeOf 0 nb)
      intro r c hr hc
      rw [hvn r c hr hc, key 0 nb hsh r c (by omega) (by omega)]
    have e2 : b3 = b1.transpose := by
      apply board.eq_of_fields
      · rw [hr3]
        show (b.columns.toNat : Int) = (b1.columns.toNat : Int)
        rw [hc1]
      · rw [hc3]
        show (b.matrix.length : Int) = (b1.matrix.length : Int)
        rw [hlen1]
      · have et : b1.transpose.matrix =
            Grid.transpose b.matrix.length b.columns.toNat ⟨false⟩ b1.matrix := by
          show Grid.transpose b1.matrix.length b1.columns.toNat ⟨false⟩ b1.matrix = _
          rw [hlen1, hc1]
        rw [et]
        apply hs3.grid_eq (board.transpose_shapeOf _ b1.matrix)
        intro r c hr hc
        rw [hvb r c hr hc, key _ b1.matrix hs1 r c (by omega) (by omega)]
    rw [← e1, ← e2]
    exact ⟨hN2, hI2⟩

/-- C17 on the 3x3 board whose top row is alive: the reversed and transposed
boards step to the reversed and transposed next generation. -/
theorem C17_iterate_commutes_with_symmetries_witness :
    topRow3.WellFormed ∧
    ∃ b1 nb, topRow3.Neighbours = some (topRow3, nb) ∧ topRow3.Iterate = some (b1, none) ∧
      topRow3.flipRows.Iterate = some (b1.flipRows, none) ∧
      topRow3.flipColumns.Iterate = some (b1.flipColumns, none) ∧
      topRow3.transpose.Iterate = some (b1.transpose, none) ∧
      topRow3.transpose.Neighbours = some (topRow3.transpose, Grid.transpose 3 3 0 nb) := by
  obtain ⟨b1, nb, hN, hI, ⟨_, h1⟩, ⟨_, h2⟩, ⟨h3, h4⟩⟩ :=
    C17_iterate_commutes_with_symmetries topRow3 (by decide)
  exact ⟨by decide, b1, nb, hN, hI, h1, h2, h4, h3⟩

end GameOfLife
